import Mathlib

/-!
# alphaPilot: loggerd (segment rotation, ingest loop, encoder worker) and the Ford safety hooks

Shallow embedding of selfdrive/loggerd/loggerd.cc and panda/board/safety/safety_ford.h.

Conventions of the embedding:
* uint32_t and uint64_t values are natural numbers, reduced modulo 2^32 or 2^64
  where the C code can wrap; int values are integers, wrapped by wrapInt32 where the
  C code increments them.
* a byte buffer is a list of natural numbers below 256.
* a double is a value of the type Double below: finite values are integers in units of
  2^-1074 and every operation rounds to nearest, ties to even, as binary64 does.
* pointers (sockets, logger handles) are natural numbers, NULL is none.
* calls into code outside the two files (zmq, capnp, the logger, the encoder, the video
  ring) are recorded as effects, and their results are inputs of the step functions.
-/

namespace Loggerd

/-! ## Machine arithmetic -/

/-- Two-complement wrap of an integer to the range of a 32-bit C int. -/
def wrapInt32 (x : Int) : Int := (x + 2 ^ 31) % 2 ^ 32 - 2 ^ 31

/-- Subtraction of two uint32_t values, as C computes it (modulo 2^32). -/
def subU32 (a b : Nat) : Nat := (a + 2 ^ 32 - b % 2 ^ 32) % 2 ^ 32

/-- The eight bytes of a uint64_t as they lie in memory on the little-endian target. -/
def bytesOfU64 (t : Nat) : List Nat :=
  (List.range 8).map (fun i => (t / 256 ^ i) % 256)

/-- Library memcpy(dst + off, src, src.length): none when the write leaves the buffer. -/
def memcpy (dst : List Nat) (off : Nat) (src : List Nat) : Option (List Nat) :=
  if off + src.length ≤ dst.length then
    some (dst.take off ++ src ++ dst.drop (off + src.length))
  else none

/-- Library memcmp(data + off, pat, pat.length) == 0: none when the read leaves the buffer. -/
def memcmpEq (data : List Nat) (off : Nat) (pat : List Nat) : Option Bool :=
  if off + pat.length ≤ data.length then
    some (decide ((data.drop off).take pat.length = pat))
  else none

/-! ## Shared state (struct LoggerdState) -/

/-- The fields of struct LoggerdState that ingest and encoders share under s.lock. -/
structure LoggerdState where
  segment_path : String
  last_frame_id : Nat
  rotate_last_frame_id : Nat
  rotate_segment : Int
deriving DecidableEq, Repr

/-- The global s is zero-initialised (static storage duration). -/
def LoggerdState.zero : LoggerdState :=
  { segment_path := "", last_frame_id := 0, rotate_last_frame_id := 0, rotate_segment := 0 }

/-! ## Ingest loop (main) -/

/-- One call logger_log(&s.logger, data, len, qlog). The socket is kept as a ghost field
so that statements can speak about the messages of one topic. -/
structure LogEntry where
  sock : Nat
  data : List Nat
  qlog : Bool
deriving DecidableEq, Repr

/-- Ways the message handler stops the process or leaves defined behaviour. -/
inductive Abort where
  | assertion
  | undefined_behaviour
deriving DecidableEq, Repr

/-- A message drained from a socket, with the results of the external calls made on it:
frame_id is some id exactly when the capnp reader says event.isFrame(), and recv_time is
the value nanos_since_boot() returns for it. -/
structure Msg where
  sock : Nat
  data : List Nat
  frame_id : Option Nat
  recv_time : Nat
deriving DecidableEq, Repr

/-- Locals of main that the message handler reads and writes, with the shared state. -/
structure MainState where
  s : LoggerdState
  frame_sock : Option Nat
  ts_replace_sock : List Nat
  qlog_counter : Nat → Int
  qlog_freqs : Nat → Int
  logged : List LogEntry
  msg_count : Nat
  bytes_count : Nat
  aborted : Option Abort

/-- Line 600: qlog_counter[sock] = (qlog_freq == 0) ? -1 : 0. -/
def qlog_counter_init (qlog_freq : Int) : Int := if qlog_freq = 0 then -1 else 0

/-- Lines 595 to 601: registration of one subscribed socket. -/
def subscribe (st : MainState) (sock : Nat) (name : String) (qlog_freq : Int)
    (remote : Bool) : MainState :=
  { st with
    ts_replace_sock := if remote then sock :: st.ts_replace_sock else st.ts_replace_sock
    frame_sock := if name = "frame" then some sock else st.frame_sock
    qlog_counter := fun x => if x = sock then qlog_counter_init qlog_freq else st.qlog_counter x
    qlog_freqs := fun x => if x = sock then qlog_freq else st.qlog_freqs x }

/-- State of main before the first subscription. -/
def MainState.init : MainState :=
  { s := LoggerdState.zero, frame_sock := none, ts_replace_sock := [],
    qlog_counter := fun _ => 0, qlog_freqs := fun _ => 0,
    logged := [], msg_count := 0, bytes_count := 0, aborted := none }

/-- Lines 667 to 681: on the frame socket a frame event stores its frame id. -/
def trackFrame (st : MainState) (m : Msg) : LoggerdState :=
  if st.frame_sock = some m.sock then
    match m.frame_id with
    | some f => { st.s with last_frame_id := f }
    | none => st.s
  else st.s

/-- Lines 683 to 716: the binary timestamp patch. With assertions compiled in (ndebug
false) the sentinel is compared first and a mismatch aborts; with NDEBUG the assert is
empty. The memcpy then always runs. -/
def tsPatch (ndebug : Bool) (data : List Nat) (current_time : Nat) :
    Except Abort (List Nat) :=
  let checked : Except Abort Unit :=
    if ndebug then .ok ()
    else match memcmpEq data 0xC [0x02, 0x00, 0x01, 0x00] with
      | none => .error .undefined_behaviour
      | some true => .ok ()
      | some false => .error .assertion
  match checked with
  | .error e => .error e
  | .ok () =>
    match memcpy data 0x10 (bytesOfU64 current_time) with
    | none => .error .undefined_behaviour
    | some d => .ok d

/-- Lines 721 to 725: the counter update after a message was logged. -/
def qlogAdvance (counter freq : Int) : Except Abort Int :=
  if counter ≠ -1 then
    if freq = 0 then .error .undefined_behaviour
    else .ok (Int.tmod (wrapInt32 (counter + 1)) freq)
  else .ok counter

/-- Body of the drain loop for one received message (lines 664 to 728). A process that
has aborted handles nothing more. -/
def handleMessage (ndebug : Bool) (st : MainState) (m : Msg) : MainState :=
  match st.aborted with
  | some _ => st
  | none =>
    let s1 := trackFrame st m
    let patched : Except Abort (List Nat) :=
      if m.sock ∈ st.ts_replace_sock then tsPatch ndebug m.data m.recv_time
      else .ok m.data
    match patched with
    | .error e => { st with s := s1, aborted := some e }
    | .ok data =>
      let entry : LogEntry :=
        { sock := m.sock, data := data, qlog := decide (st.qlog_counter m.sock = 0) }
      match qlogAdvance (st.qlog_counter m.sock) (st.qlog_freqs m.sock) with
      | .error e => { st with s := s1, logged := st.logged ++ [entry], aborted := some e }
      | .ok c =>
        { st with
          s := s1
          logged := st.logged ++ [entry]
          qlog_counter := fun x => if x = m.sock then c else st.qlog_counter x
          msg_count := (st.msg_count + 1) % 2 ^ 64
          bytes_count := (st.bytes_count + m.data.length) % 2 ^ 64 }

/-- The messages drained over any number of loop iterations, in order of receipt. -/
def drainMessages (ndebug : Bool) (st : MainState) (msgs : List Msg) : MainState :=
  msgs.foldl (handleMessage ndebug) st

/-- Decoding of eight bytes in memory as a uint64_t on the little-endian target. -/
def u64OfBytes (bs : List Nat) : Nat :=
  ((bs.take 8).reverse).foldl (fun acc b => acc * 256 + b) 0

/-- Frame ids of the frame events among the messages of the frame socket, in order of
receipt. -/
def frameIds (frame_sock : Nat) (msgs : List Msg) : List Nat :=
  msgs.filterMap (fun m => if m.sock = frame_sock then m.frame_id else none)

/-- A timestamp-patchable socket 1 and the frame socket 2, both without quicklog. -/
def sampleMain : MainState :=
  subscribe (subscribe MainState.init 1 "gpsLocationExternal" 0 true) 2 "frame" 0 false

/-- A message of 24 zero bytes on socket 1, received at time 1: no sentinel at 0x0C. -/
def noSentinelMsg : Msg :=
  { sock := 1, data := List.replicate 24 0, frame_id := none, recv_time := 1 }

/-- A message of 24 bytes on socket 1 with the sentinel at 0x0C, received at time 258. -/
def sentinelMsg : Msg :=
  { sock := 1, data := List.replicate 12 7 ++ [2, 0, 1, 0] ++ List.replicate 8 9,
    frame_id := none, recv_time := 258 }

/-- A frame event with the given frame id on socket 2. -/
def frameMsg (frame_id : Nat) : Msg :=
  { sock := 2, data := [], frame_id := some frame_id, recv_time := 0 }

/-- Entries logged for one topic, in order. -/
def entriesOf (sock : Nat) (st : MainState) : List LogEntry :=
  st.logged.filter (fun e => e.sock = sock)

/-- Positions (0-based, within the topic) of the entries logged with the quicklog flag. -/
def quicklogIndices (sock : Nat) (st : MainState) : List Nat :=
  (List.range (entriesOf sock st).length).filter
    (fun n => ((entriesOf sock st).map LogEntry.qlog).getD n false)

/-- Invariant of one topic with quicklog frequency k: the flags logged so far follow the
sampling pattern and the counter is the number of logged entries modulo k. -/
def QlogInv (k : Nat) (sock : Nat) (st : MainState) : Prop :=
  st.qlog_freqs sock = (k : Int) ∧
  (entriesOf sock st).map LogEntry.qlog
    = (List.range (entriesOf sock st).length).map (fun n => decide (n % k = 0)) ∧
  st.qlog_counter sock = (((entriesOf sock st).length % k : Nat) : Int)

/-! ## Encoder worker (encoder_thread) -/

/-- Fields of VIPCBufExtra that the worker reads (both are unsigned machine words). -/
structure VIPCBufExtra where
  frame_id : Nat
  timestamp_eof : Nat
deriving DecidableEq, Repr

/-- The values of cereal::EncodeIndex::Type that the worker writes. -/
inductive EncodeIndexType where
  | FULL_H_E_V_C
  | FRONT
  | FULL_LOSSLESS_CLIP
deriving DecidableEq, Repr

/-- The encode index event built for one encoded frame. -/
structure EncodeIdx where
  frame_id : Nat
  type : EncodeIndexType
  encode_id : Int
  segment_num : Int
  segment_id : Int
deriving DecidableEq, Repr

/-- Calls the worker makes into the encoder, the logger and zmq, in program order. -/
inductive Effect where
  | encoder_rotate (path : String) (seg : Int)
  | rawlogger_rotate (path : String) (seg : Int)
  | lh_close (h : Nat)
  | logger_get_handle (result : Option Nat)
  | zmq_send (e : EncodeIdx)
  | lh_log (h : Nat) (e : EncodeIdx)
deriving DecidableEq, Repr

/-- Results of the external calls one step of the worker may make: the RecordFront
parameter, visionstream_init, visionstream_get (none is NULL), logger_get_handle (none is
NULL), the segment and id returned by encoder_encode_frame, and, when a raw clip is being
recorded (ts > rawlogger_start_time), the segment and id returned by LogFrame. -/
structure EncInput where
  record_front : Bool
  connect_ok : Bool
  frame : Option VIPCBufExtra
  new_handle : Option Nat
  out_segment : Int
  out_id : Int
  raw_clip : Option (Int × Int)
deriving DecidableEq, Repr

/-- Control points of encoder_thread between which a step runs. -/
inductive Loc where
  | entry
  | outer
  | inner
  | waiting (extra : VIPCBufExtra)
  | returned
deriving DecidableEq, Repr

/-- Arguments and locals of one encoder_thread, with the calls it has made so far. -/
structure Worker where
  front : Bool
  raw_clips : Bool
  loc : Loc
  encoder_segment : Int
  cnt : Int
  lh : Option Nat
  effects : List Effect
deriving DecidableEq, Repr

/-- State of a worker when its thread starts (lines 105, 106, 112). -/
def Worker.init (front raw_clips : Bool) : Worker :=
  { front := front, raw_clips := raw_clips, loc := .entry,
    encoder_segment := -1, cnt := 0, lh := none, effects := [] }

/-- Lines 169 to 171: the condition of the wait loop of the rear camera worker. -/
def waitCond (frame_id last_frame_id : Nat) (do_exit : Bool) : Bool :=
  decide (frame_id > last_frame_id) && decide (subU32 frame_id last_frame_id < 8) && !do_exit

/-- Lines 174 and 177: the value given to the local should_rotate. -/
def should_rotate (front : Bool) (frame_id : Nat) (encoder_segment : Int)
    (s : LoggerdState) : Bool :=
  if !front then
    decide (frame_id > s.rotate_last_frame_id) && decide (encoder_segment < s.rotate_segment)
  else
    decide (encoder_segment < s.rotate_segment)

/-- Lines 270 to 280: what follows the inner loop, back to the head of the outer loop. -/
def leaveInner (w : Worker) : Worker :=
  match w.lh with
  | some h => { w with lh := none, effects := w.effects ++ [Effect.lh_close h], loc := .outer }
  | none => { w with loc := .outer }

/-- Lines 182 to 196: rotation of the encoder into the segment of the logger. -/
def rotateEncoder (s : LoggerdState) (inp : EncInput) (w : Worker) : Worker :=
  { w with
    encoder_segment := s.rotate_segment
    lh := inp.new_handle
    effects := w.effects
      ++ [Effect.encoder_rotate s.segment_path s.rotate_segment]
      ++ (if w.raw_clips then [Effect.rawlogger_rotate s.segment_path s.rotate_segment] else [])
      ++ (match w.lh with
          | some h => [Effect.lh_close h]
          | none => [])
      ++ [Effect.logger_get_handle inp.new_handle] }

/-- Lines 199 to 224: encode the frame, publish its index event and log it. -/
def encodeAndLog (inp : EncInput) (extra : VIPCBufExtra) (w : Worker) : Worker :=
  let idx : EncodeIdx :=
    { frame_id := extra.frame_id
      type := if w.front then .FRONT else .FULL_H_E_V_C
      encode_id := w.cnt
      segment_num := inp.out_segment
      segment_id := inp.out_id }
  { w with
    effects := w.effects ++ [Effect.zmq_send idx]
      ++ (match w.lh with
          | some h => [Effect.lh_log h idx]
          | none => []) }

/-- Lines 226 to 265: the index event of a frame that is part of a raw clip. -/
def logRawClip (inp : EncInput) (extra : VIPCBufExtra) (w : Worker) : Worker :=
  if w.raw_clips then
    match inp.raw_clip with
    | some (out_segment, out_id) =>
      let idx : EncodeIdx :=
        { frame_id := extra.frame_id
          type := .FULL_LOSSLESS_CLIP
          encode_id := w.cnt
          segment_num := out_segment
          segment_id := out_id }
      { w with
        effects := w.effects
          ++ (match w.lh with
              | some h => [Effect.lh_log h idx]
              | none => []) }
    | none => w
  else w

/-- Lines 164 to 268 for a frame taken from the ring: with the lock held the rear worker
evaluates the wait condition and, when it holds, blocks in s.cv.wait; otherwise the
worker leaves on shutdown or rotates when should_rotate says so, then encodes, publishes
and counts the frame. -/
def processFrame (s : LoggerdState) (do_exit : Bool) (inp : EncInput) (w : Worker)
    (extra : VIPCBufExtra) : Worker :=
  if !w.front && waitCond extra.frame_id s.last_frame_id do_exit then
    { w with loc := .waiting extra }
  else if do_exit then
    leaveInner w
  else
    let w1 := if should_rotate w.front extra.frame_id w.encoder_segment s
      then rotateEncoder s inp w else w
    let w2 := encodeAndLog inp extra w1
    let w3 := logRawClip inp extra w2
    { w3 with cnt := wrapInt32 (w3.cnt + 1), loc := .inner }

/-- One step of encoder_thread from its current control point. -/
def Worker.step (s : LoggerdState) (do_exit : Bool) (inp : EncInput) (w : Worker) : Worker :=
  match w.loc with
  | .entry =>
    if w.front && !inp.record_front then { w with loc := .returned }
    else { w with loc := .outer }
  | .outer =>
    if do_exit then { w with loc := .returned }
    else if !inp.connect_ok then w
    else { w with loc := .inner }
  | .inner =>
    if do_exit then leaveInner w
    else
      match inp.frame with
      | none => leaveInner w
      | some extra => processFrame s do_exit inp w extra
  | .waiting extra => processFrame s do_exit inp w extra
  | .returned => w

/-! ## The process: ingest and one encoder worker over the shared state -/

/-- The shared state, the shutdown flag and one encoder worker. -/
structure Sys where
  s : LoggerdState
  do_exit : Bool
  worker : Worker
deriving DecidableEq, Repr

/-- Atomic actions of the process as the worker can observe them: a signal sets do_exit;
main stores the frame id of a frame event (lines 676 to 679); main calls logger_next
before the threads start (line 623); main rotates (lines 738 to 745, the pair is the path
and number written by logger_next, none when is_logging is false); the worker steps. -/
inductive Event where
  | signal
  | frame_event (frame_id : Nat)
  | logger_next (path : String) (seg : Int)
  | rotate_tick (next : Option (String × Int))
  | encoder (inp : EncInput)
deriving DecidableEq, Repr

/-- Effect of one action on the process. -/
def Sys.step (sys : Sys) : Event → Sys
  | .signal => { sys with do_exit := true }
  | .frame_event f => { sys with s := { sys.s with last_frame_id := f } }
  | .logger_next path seg =>
    { sys with s := { sys.s with segment_path := path, rotate_segment := seg } }
  | .rotate_tick next =>
    let s1 := { sys.s with rotate_last_frame_id := sys.s.last_frame_id }
    match next with
    | some (path, seg) =>
      { sys with s := { s1 with segment_path := path, rotate_segment := seg } }
    | none => { sys with s := s1 }
  | .encoder inp => { sys with worker := sys.worker.step sys.s sys.do_exit inp }

/-- The process when main starts: zeroed shared state, a worker about to start. -/
def Sys.init (front raw_clips : Bool) : Sys :=
  { s := LoggerdState.zero, do_exit := false, worker := Worker.init front raw_clips }

/-- State after a sequence of actions. -/
def Sys.run (sys : Sys) (evs : List Event) : Sys := evs.foldl Sys.step sys

/-- The segment number an action makes logger_next write, if it calls logger_next. -/
def Event.segment : Event → Option Int
  | .logger_next _ seg => some seg
  | .rotate_tick (some (_, seg)) => some seg
  | _ => none

/-- Whether the segment number an action makes logger_next write, if any, is at least the
number rotate_segment holds before the action. -/
def segmentOk (sys : Sys) (e : Event) : Bool :=
  match e.segment with
  | some seg => decide (sys.s.rotate_segment ≤ seg)
  | none => true

/-- Assumption on the logger: along the sequence of actions every call of logger_next
writes a segment number that is at least the number rotate_segment held before. -/
def segmentsMonotone : Sys → List Event → Bool
  | _, [] => true
  | sys, e :: es => segmentOk sys e && segmentsMonotone (sys.step e) es

/-- Input of a worker step in which every external call succeeds and the ring delivers
the frame with the given id. -/
def frameInput (frame_id : Nat) (handle : Nat) : EncInput :=
  { record_front := true, connect_ok := true,
    frame := some { frame_id := frame_id, timestamp_eof := 0 },
    new_handle := some handle, out_segment := 0, out_id := 0, raw_clip := none }

/-- Input of a worker step in which the video ring fails. -/
def ringFailure : EncInput :=
  { record_front := true, connect_ok := false, frame := none,
    new_handle := none, out_segment := 0, out_id := 0, raw_clip := none }

/-- A run of the rear worker: start in segment 0, encode frame 1, rotate into segment 1
at frame 2, lose the ring, reconnect, encode frame 3, shut down. -/
def sampleRun : List Event :=
  [ .logger_next "seg0" 0,
    .encoder (frameInput 0 100), .encoder (frameInput 0 100),
    .frame_event 1, .encoder (frameInput 1 100),
    .rotate_tick (some ("seg1", 1)),
    .frame_event 2, .encoder (frameInput 2 101),
    .encoder ringFailure, .encoder (frameInput 0 102),
    .frame_event 3, .encoder (frameInput 3 102),
    .signal, .encoder ringFailure, .encoder ringFailure ]

/-- Handles open after one more call, given the handles open before it. -/
def Effect.applyHeld (held : List Nat) : Effect → List Nat
  | .logger_get_handle (some h) => h :: held
  | .lh_close h => held.erase h
  | _ => held

/-- Handles open after a sequence of calls, given the handles open before it. -/
def heldFrom (held : List Nat) (effs : List Effect) : List Nat :=
  effs.foldl Effect.applyHeld held

/-- Handles the worker has acquired and not yet closed after a sequence of calls. -/
def heldAfter (effs : List Effect) : List Nat := heldFrom [] effs

/-- At most one handle is open before the calls and after each of them. -/
def heldBound (held : List Nat) : List Effect → Prop
  | [] => held.length ≤ 1
  | e :: es => held.length ≤ 1 ∧ heldBound (e.applyHeld held) es

/-- The part of the handle invariant that does not depend on the control point. -/
def HandleOk (w : Worker) : Prop :=
  heldBound [] w.effects ∧ heldAfter w.effects = w.lh.toList

/-- Invariant of the worker on its writer handle: the calls made so far never had two
handles open, the handle open after them is the one in lh, and lh is NULL outside the
inner loop. -/
def HandleInv (w : Worker) : Prop :=
  heldBound [] w.effects ∧ heldAfter w.effects = w.lh.toList ∧
  ((w.loc = Loc.entry ∨ w.loc = Loc.outer ∨ w.loc = Loc.returned) → w.lh = none)

/-! ## Binary64 arithmetic and the segment clock of main -/

/-- A C double. A finite value is an integer number of units of 2^-1074 (every finite
binary64 value is such a multiple; the two zeros are not told apart); the other values
are the two infinities and NaN. -/
inductive Double where
  | fin (x : Int)
  | inf (negative : Bool)
  | nan
deriving DecidableEq, Repr

/-- Number of binary digits of n (0 for 0), computed by halving; the first argument
bounds the number of halvings and n itself is always enough. -/
def bitLength : Nat → Nat → Nat
  | 0, _ => 0
  | fuel + 1, n => if n = 0 then 0 else bitLength fuel (n / 2) + 1

/-- Rounding of an exact value (in units of 2^-1074) to the nearest value with a 53-bit
significand, ties to the even significand, with no bound on the exponent. Values below
2^53 units (the subnormal and lowest normal range) are kept as they are. -/
def roundBinary64 (x : Int) : Int :=
  let m := x.natAbs
  if m < 2 ^ 53 then x
  else
    let e := bitLength m m - 53
    let q := m / 2 ^ e
    let r := m % 2 ^ e
    let q1 := if 2 * r > 2 ^ e ∨ (2 * r = 2 ^ e ∧ q % 2 = 1) then q + 1 else q
    if x < 0 then -((q1 * 2 ^ e : Nat) : Int) else ((q1 * 2 ^ e : Nat) : Int)

/-- The double that an exact value rounds to: a rounded magnitude of 2^1024 or more
(2^2098 units) overflows to an infinity. -/
def Double.ofExact (x : Int) : Double :=
  if (roundBinary64 x).natAbs < 2 ^ 2098 then .fin (roundBinary64 x) else .inf (decide (x < 0))

/-- Negation of a double. -/
def Double.neg : Double → Double
  | .fin x => .fin (-x)
  | .inf s => .inf (!s)
  | .nan => .nan

/-- Addition of two doubles in the default rounding mode. -/
def Double.add : Double → Double → Double
  | .fin a, .fin b => Double.ofExact (a + b)
  | .nan, _ => .nan
  | _, .nan => .nan
  | .inf s, .inf t => if s = t then .inf s else .nan
  | .inf s, .fin _ => .inf s
  | .fin _, .inf t => .inf t

/-- Subtraction of two doubles. -/
def Double.sub (a b : Double) : Double := Double.add a (Double.neg b)

/-- Comparison a > b of two doubles; false when one of them is NaN. -/
def Double.gt : Double → Double → Bool
  | .fin a, .fin b => decide (a > b)
  | .inf false, .fin _ => true
  | .inf false, .inf true => true
  | .fin _, .inf true => true
  | _, _ => false

/-- The double a small integer number of seconds converts to. -/
def Double.ofSeconds (n : Nat) : Double := Double.ofExact ((n * 2 ^ 1074 : Nat) : Int)

/-- SEGMENT_LENGTH (line 49) as a double. -/
def SEGMENT_LENGTH : Double := Double.ofSeconds 60

/-- Locals start_ts and last_rotate_ts of main (lines 628 and 629), with the number of
rotations made so far as a ghost field. -/
structure ClockState where
  start_ts : Double
  last_rotate_ts : Double
  rotations : Nat
deriving DecidableEq, Repr

/-- Lines 628 and 629: both locals take the time read once at start. -/
def ClockState.init (start_ts : Double) : ClockState :=
  { start_ts := start_ts, last_rotate_ts := start_ts, rotations := 0 }

/-- Line 733: the test ts - last_rotate_ts > SEGMENT_LENGTH. -/
def rotationDue (ts last_rotate_ts : Double) : Bool :=
  Double.gt (Double.sub ts last_rotate_ts) SEGMENT_LENGTH

/-- Lines 732 to 746, the clock part of one iteration of the loop of main, where ts is
the value seconds_since_boot() returns in that iteration. What a rotation does to the
shared state is the action rotate_tick of Sys.step. -/
def clockTick (st : ClockState) (ts : Double) : ClockState :=
  if rotationDue ts st.last_rotate_ts then
    { st with
      last_rotate_ts := Double.add st.last_rotate_ts SEGMENT_LENGTH
      rotations := st.rotations + 1 }
  else st

/-- The clock over the iterations of the loop, given the time read in each. -/
def clockRun (st : ClockState) (tss : List Double) : ClockState := tss.foldl clockTick st

/-- The value of last_rotate_ts after n rotations from start_ts: SEGMENT_LENGTH added n
times, each addition rounded. -/
def addSegments (n : Nat) (start_ts : Double) : Double :=
  (fun x => Double.add x SEGMENT_LENGTH)^[n] start_ts

/-- The double 12.032283805385457 (0x1.8108780c0a456p+3). -/
def sampleStart : Double := .fin ((3386786803896875 * 2 ^ 1026 : Nat) : Int)

/-- The doubles 73.0, 133.0 and 192.03228380538548. -/
def sampleTicks : List Double :=
  [Double.ofSeconds 73, Double.ofSeconds 133, .fin ((3378267663238435 * 2 ^ 1030 : Nat) : Int)]

/-- The double 12.0. -/
def exactStart : Double := .fin ((12 * 2 ^ 1074 : Nat) : Int)

/-- Frame ids of the encode index events handed to lh_log, in order. -/
def loggedFrames (effs : List Effect) : List Nat :=
  effs.filterMap (fun e =>
    match e with
    | .lh_log _ idx => some idx.frame_id
    | _ => none)

/-- Frame ids of the encode index events published with zmq_send, in order. -/
def publishedFrames (effs : List Effect) : List Nat :=
  effs.filterMap (fun e =>
    match e with
    | .zmq_send idx => some idx.frame_id
    | _ => none)

/-- The sample run up to the frame encoded after the ring failure and the reconnect. -/
def reconnectRun : List Event := sampleRun.take 12

end Loggerd

namespace SafetyFord

/-! ## Ford safety hooks (safety_ford.h) -/

/-- The CAN mailbox registers (all uint32_t). -/
structure CAN_FIFOMailBox_TypeDef where
  RIR : Nat
  RDTR : Nat
  RDLR : Nat
  RDHR : Nat
deriving DecidableEq, Repr

/-- The globals the Ford hooks read and write; controls_allowed is declared by the
including file. -/
structure SafetyState where
  controls_allowed : Int
  ford_brake_prev : Int
  ford_gas_prev : Int
  ford_is_moving : Int
deriving DecidableEq, Repr

/-- The function ford_rx_hook. GET_ADDR is a preprocessor definition of the including
file and is a parameter here. -/
def ford_rx_hook (GET_ADDR : CAN_FIFOMailBox_TypeDef → Int) (st : SafetyState)
    (to_push : CAN_FIFOMailBox_TypeDef) : SafetyState :=
  let addr := GET_ADDR to_push
  let st1 : SafetyState :=
    if addr = 0x217 then
      { st with ford_is_moving :=
          ((0xFCFF &&& (to_push.RDLR ||| (to_push.RDLR >>> 16) |||
                        to_push.RDHR ||| (to_push.RDHR >>> 16)) : Nat) : Int) }
    else st
  let st2 : SafetyState :=
    if addr = 0x83 then
      let cancel : Bool := decide ((to_push.RDLR >>> 8) &&& 0x1 ≠ 0)
      let set_or_resume : Bool := decide ((to_push.RDLR >>> 28) &&& 0x3 ≠ 0)
      let a : SafetyState := if cancel then { st1 with controls_allowed := 0 } else st1
      if set_or_resume then { a with controls_allowed := 1 } else a
    else st1
  let st3 : SafetyState :=
    if addr = 0x165 then
      let brake : Int := ((to_push.RDLR &&& 0x20 : Nat) : Int)
      let a : SafetyState :=
        if brake ≠ 0 ∧ (st2.ford_brake_prev = 0 ∨ st2.ford_is_moving ≠ 0)
        then { st2 with controls_allowed := 0 } else st2
      { a with ford_brake_prev := brake }
    else st2
  if addr = 0x204 then
    let gas : Int := ((to_push.RDLR &&& 0xFF03 : Nat) : Int)
    let a : SafetyState :=
      if gas ≠ 0 ∧ st3.ford_gas_prev = 0 then { st3 with controls_allowed := 0 } else st3
    { a with ford_gas_prev := gas }
  else st3

/-- The function ford_tx_hook: the globals after the call and the returned value. -/
def ford_tx_hook (GET_ADDR : CAN_FIFOMailBox_TypeDef → Int) (st : SafetyState)
    (to_send : CAN_FIFOMailBox_TypeDef) : SafetyState × Int :=
  let pedal_pressed : Int :=
    if st.ford_gas_prev ≠ 0 ∨ (st.ford_brake_prev ≠ 0 ∧ st.ford_is_moving ≠ 0) then 1 else 0
  let current_controls_allowed : Bool :=
    decide (st.controls_allowed ≠ 0) && !(decide (pedal_pressed ≠ 0))
  let addr := GET_ADDR to_send
  let tx1 : Int :=
    if addr = 0x3CA then
      if !current_controls_allowed then
        if (to_send.RDLR >>> 4) &&& 0xF ≠ 0xF then 0 else 1
      else 1
    else 1
  let tx2 : Int :=
    if addr = 0x83 then
      if (to_send.RDLR >>> 28) &&& 0x3 ≠ 0 then 0 else tx1
    else tx1
  (st, tx2)

/-- The standard identifier field of the RIR register (bits 31 to 21), the address of
the sample messages. -/
def sampleAddr (m : CAN_FIFOMailBox_TypeDef) : Int := ((m.RIR >>> 21 : Nat) : Int)

/-- A message with address 0x83 whose RDLR has the cancel bit (bit 8) and the low
set/resume bit (bit 28) both set. -/
def cancelWithResume : CAN_FIFOMailBox_TypeDef :=
  { RIR := 0x83 <<< 21, RDTR := 8, RDLR := 0x10000100, RDHR := 0 }

/-- A message with address 0x165 whose RDLR has the brake bit (bit 5) set. -/
def brakePressed : CAN_FIFOMailBox_TypeDef :=
  { RIR := 0x165 <<< 21, RDTR := 8, RDLR := 0x20, RDHR := 0 }

/-- A safety state with controls allowed, no pedal pressed before, vehicle standing. -/
def engagedState : SafetyState :=
  { controls_allowed := 1, ford_brake_prev := 0, ford_gas_prev := 0, ford_is_moving := 0 }

end SafetyFord

namespace Loggerd

/-! ## Quicklog sampling -/

theorem wrapInt32_id (x : Int) (h0 : 0 ≤ x) (h1 : x < 2 ^ 31) : wrapInt32 x = x := by
  unfold wrapInt32
  rw [Int.emod_eq_of_lt (by omega) (by omega)]
  omega

theorem qlogAdvance_ok (k c : Nat) (hk : 1 ≤ k) (hk2 : k < 2 ^ 31) (hc : c < k) :
    qlogAdvance (c : Int) (k : Int) = .ok (((c + 1) % k : Nat) : Int) := by
  unfold qlogAdvance
  have h1 : ((c : Int) ≠ -1) := by omega
  have h2 : ((k : Int) ≠ 0) := by omega
  rw [if_pos h1, if_neg h2, wrapInt32_id _ (by omega) (by omega)]
  have : ((c : Int) + 1) = ((c + 1 : Nat) : Int) := by push_cast; rfl
  rw [this, Int.tmod_eq_emod (by omega) (by omega)]
  norm_cast

theorem handleMessage_qlogInv (ndebug : Bool) (k sock : Nat) (hk : 1 ≤ k) (hk2 : k < 2 ^ 31)
    (st : MainState) (m : Msg) (h : QlogInv k sock st) :
    QlogInv k sock (handleMessage ndebug st m) := by
  obtain ⟨hf, hp, hc⟩ := h
  unfold handleMessage
  cases hab : st.aborted with
  | some e => exact ⟨hf, hp, hc⟩
  | none =>
    simp only []
    cases hpt : (if m.sock ∈ st.ts_replace_sock then tsPatch ndebug m.data m.recv_time
        else Except.ok m.data) with
    | error e => exact ⟨hf, hp, hc⟩
    | ok data =>
      simp only []
      by_cases hs : m.sock = sock
      · subst hs
        have hlt : (entriesOf m.sock st).length % k < k := Nat.mod_lt _ (by omega)
        rw [hf, hc, qlogAdvance_ok k _ hk hk2 hlt]
        refine ⟨hf, ?_, ?_⟩
        · simp only [entriesOf, List.filter_append, List.filter_cons, List.filter_nil,
            decide_True, if_true, List.map_append, List.length_append, List.length_cons,
            List.length_nil, List.range_succ, List.map_cons, List.map_nil]
          simp only [entriesOf] at hp
          rw [hp]
          congr 2
          simp only [Nat.zero_add, Int.natCast_eq_zero]
        · simp only [entriesOf, List.filter_append, List.filter_cons, List.filter_nil,
            decide_True, if_true, List.length_append, List.length_cons, List.length_nil,
            Nat.mod_add_mod]
      · have hs2 : ¬ sock = m.sock := fun h => hs h.symm
        cases hq : qlogAdvance (st.qlog_counter m.sock) (st.qlog_freqs m.sock) with
        | error e =>
          simp only [QlogInv, entriesOf, List.filter_append, List.filter_cons, List.filter_nil,
            hs, decide_False, List.append_nil, Bool.false_eq_true, if_false] at *
          exact ⟨hf, hp, hc⟩
        | ok c =>
          simp only [QlogInv, entriesOf, List.filter_append, List.filter_cons, List.filter_nil,
            hs, hs2, decide_False, List.append_nil, Bool.false_eq_true, if_false] at *
          exact ⟨hf, hp, hc⟩


theorem drainMessages_qlogInv (ndebug : Bool) (k sock : Nat) (hk : 1 ≤ k) (hk2 : k < 2 ^ 31)
    (msgs : List Msg) (st : MainState) (h : QlogInv k sock st) :
    QlogInv k sock (drainMessages ndebug st msgs) := by
  induction msgs generalizing st with
  | nil => exact h
  | cons m ms ih =>
    exact ih (handleMessage ndebug st m) (handleMessage_qlogInv ndebug k sock hk hk2 st m h)

/-- A message handled without abort was handled by a live process and added exactly one
entry, under its own socket. -/
theorem handleMessage_live (ndebug : Bool) (sock : Nat) (st : MainState) (m : Msg)
    (h : (handleMessage ndebug st m).aborted = none) :
    st.aborted = none ∧
    (entriesOf sock (handleMessage ndebug st m)).length
      = (entriesOf sock st).length + (if m.sock = sock then 1 else 0) := by
  unfold handleMessage at h ⊢
  cases hab : st.aborted with
  | some e => rw [hab] at h; simp only [] at h; rw [hab] at h; exact absurd h (by simp)
  | none =>
    rw [hab] at h
    simp only [] at h ⊢
    cases hpt : (if m.sock ∈ st.ts_replace_sock then tsPatch ndebug m.data m.recv_time
        else Except.ok m.data) with
    | error e => rw [hpt] at h; exact absurd h (by simp)
    | ok data =>
      rw [hpt] at h
      simp only [] at h ⊢
      cases hq : qlogAdvance (st.qlog_counter m.sock) (st.qlog_freqs m.sock) with
      | error e => rw [hq] at h; exact absurd h (by simp)
      | ok c =>
        refine ⟨trivial, ?_⟩
        by_cases hs : m.sock = sock <;>
          simp [entriesOf, List.filter_append, List.filter_cons, hs]

theorem drainMessages_live (ndebug : Bool) (sock : Nat) (msgs : List Msg) (st : MainState)
    (h : (drainMessages ndebug st msgs).aborted = none) :
    st.aborted = none ∧
    (entriesOf sock (drainMessages ndebug st msgs)).length
      = (entriesOf sock st).length + (msgs.filter (fun m => m.sock = sock)).length := by
  induction msgs generalizing st with
  | nil => exact ⟨h, by simp [drainMessages]⟩
  | cons m ms ih =>
    have h1 := ih (handleMessage ndebug st m) h
    have h2 := handleMessage_live ndebug sock st m h1.1
    refine ⟨h2.1, ?_⟩
    have : drainMessages ndebug st (m :: ms)
        = drainMessages ndebug (handleMessage ndebug st m) ms := rfl
    rw [this, h1.2, h2.2]
    by_cases hs : m.sock = sock
    · simp [List.filter_cons, hs]; omega
    · simp [List.filter_cons, hs]

theorem quicklogIndices_of_pattern (k sock : Nat) (st : MainState)
    (hp : (entriesOf sock st).map LogEntry.qlog
      = (List.range (entriesOf sock st).length).map (fun n => decide (n % k = 0))) :
    quicklogIndices sock st
      = (List.range (entriesOf sock st).length).filter (fun n => decide (n % k = 0)) := by
  unfold quicklogIndices
  apply List.filter_congr
  intro n hn
  rw [hp]
  simp only [List.mem_range] at hn
  simp [List.getD_eq_getElem?_getD, hn]


/-- C1 (quicklog sampling). For a topic whose socket is configured with quicklog
frequency k, 1 ≤ k, and whose counter has its initial value, after the ingest loop has
drained any sequence of messages: the n-th entry logged for the topic carries the
quicklog flag exactly when n mod k = 0 (so entry 0 always does), every message of the
topic is logged when the process did not abort, and with k = 3 and ten messages the
flagged positions are exactly 0, 3, 6, 9. -/
theorem quicklog_sampling (ndebug : Bool) (k sock : Nat) (st : MainState) (msgs : List Msg)
    (hk : 1 ≤ k) (hk2 : k < 2 ^ 31)
    (hfreq : st.qlog_freqs sock = (k : Int))
    (hinit : st.qlog_counter sock = qlog_counter_init (k : Int))
    (hnew : entriesOf sock st = []) :
    (∀ n, n < (entriesOf sock (drainMessages ndebug st msgs)).length →
      ((((entriesOf sock (drainMessages ndebug st msgs)).map LogEntry.qlog).getD n false = true)
        ↔ n % k = 0)) ∧
    ((drainMessages ndebug st msgs).aborted = none →
      (entriesOf sock (drainMessages ndebug st msgs)).length
        = (msgs.filter (fun m => m.sock = sock)).length) ∧
    quicklogIndices sock (drainMessages ndebug st msgs)
      = (List.range (entriesOf sock (drainMessages ndebug st msgs)).length).filter
          (fun n => decide (n % k = 0)) ∧
    (k = 3 → (entriesOf sock (drainMessages ndebug st msgs)).length = 10 →
      quicklogIndices sock (drainMessages ndebug st msgs) = [0, 3, 6, 9]) := by
  have h0 : QlogInv k sock st := by
    refine ⟨hfreq, by simp [hnew], ?_⟩
    have : (k : Int) ≠ 0 := by omega
    rw [hinit, hnew]
    simp [qlog_counter_init, this]
  have hinv := drainMessages_qlogInv ndebug k sock hk hk2 msgs st h0
  have hidx := quicklogIndices_of_pattern k sock _ hinv.2.1
  refine ⟨?_, ?_, hidx, ?_⟩
  · intro n hn
    rw [hinv.2.1]
    simp [List.getD_eq_getElem?_getD, hn]
  · intro hab
    have := (drainMessages_live ndebug sock msgs st hab).2
    rw [this, hnew]
    simp
  · intro h3 h10
    rw [hidx, h3, h10]
    decide

/-- C1 witness: a topic subscribed with frequency 3 that receives ten messages. -/
theorem quicklog_sampling_witness :
    (1 ≤ 3 ∧ 3 < 2 ^ 31) ∧
    quicklogIndices 7 (drainMessages false (subscribe MainState.init 7 "can" 3 false)
      (List.replicate 10 { sock := 7, data := [], frame_id := none, recv_time := 0 }))
      = [0, 3, 6, 9] :=
  ⟨by decide,
   (quicklog_sampling false 3 7 (subscribe MainState.init 7 "can" 3 false)
      (List.replicate 10 { sock := 7, data := [], frame_id := none, recv_time := 0 })
      (by decide) (by decide) (by simp [subscribe]) (by simp [subscribe])
      (by simp [entriesOf, subscribe, MainState.init])).2.2.2 rfl
      (by decide)⟩

/-! ## Rotation decision and the wait for ingest -/

theorem leaveInner_encoder_segment (w : Worker) :
    (leaveInner w).encoder_segment = w.encoder_segment := by
  unfold leaveInner; cases w.lh <;> rfl

theorem logRawClip_encoder_segment (inp : EncInput) (extra : VIPCBufExtra) (w : Worker) :
    (logRawClip inp extra w).encoder_segment = w.encoder_segment := by
  unfold logRawClip
  split
  · split <;> rfl
  · rfl

theorem processFrame_encoder_segment (s : LoggerdState) (do_exit : Bool) (inp : EncInput)
    (w : Worker) (extra : VIPCBufExtra) :
    (processFrame s do_exit inp w extra).encoder_segment
      = if (!w.front && waitCond extra.frame_id s.last_frame_id do_exit) || do_exit
        then w.encoder_segment
        else if should_rotate w.front extra.frame_id w.encoder_segment s
          then s.rotate_segment else w.encoder_segment := by
  unfold processFrame
  cases hb : (!w.front && waitCond extra.frame_id s.last_frame_id do_exit)
  · cases do_exit
    · by_cases hr : should_rotate w.front extra.frame_id w.encoder_segment s = true
      · simp [hr, logRawClip_encoder_segment, encodeAndLog, rotateEncoder]
      · simp [hr, logRawClip_encoder_segment, encodeAndLog]
    · simp [leaveInner_encoder_segment]
  · simp

/-- C2 (rotation decision). The value of should_rotate computed by the rear camera worker
is true exactly when frame_id > rotate_last_frame_id and encoder_segment < rotate_segment;
the value computed by the front camera worker is true exactly when
encoder_segment < rotate_segment, whatever frame_id is; and a worker that is neither made
to wait nor shut down moves encoder_segment to rotate_segment exactly when should_rotate
is true. -/
theorem rotation_decision (frame_id rotate_last_frame_id last_frame_id : Nat)
    (encoder_segment rotate_segment : Int) (path : String) :
    (should_rotate false frame_id encoder_segment
        { segment_path := path, last_frame_id := last_frame_id,
          rotate_last_frame_id := rotate_last_frame_id, rotate_segment := rotate_segment } = true
      ↔ (frame_id > rotate_last_frame_id ∧ encoder_segment < rotate_segment)) ∧
    (should_rotate true frame_id encoder_segment
        { segment_path := path, last_frame_id := last_frame_id,
          rotate_last_frame_id := rotate_last_frame_id, rotate_segment := rotate_segment } = true
      ↔ encoder_segment < rotate_segment) ∧
    (∀ (s : LoggerdState) (do_exit : Bool) (inp : EncInput) (w : Worker) (extra : VIPCBufExtra),
      (processFrame s do_exit inp w extra).encoder_segment
        = if (!w.front && waitCond extra.frame_id s.last_frame_id do_exit) || do_exit
          then w.encoder_segment
          else if should_rotate w.front extra.frame_id w.encoder_segment s
            then s.rotate_segment else w.encoder_segment) := by
  refine ⟨?_, ?_, processFrame_encoder_segment⟩
  · simp [should_rotate]
  · simp [should_rotate]

theorem subU32_of_le (a b : Nat) (ha : a < 2 ^ 32) (hb : b ≤ a) : subU32 a b = a - b := by
  unfold subU32
  have hb2 : b % 2 ^ 32 = b := Nat.mod_eq_of_lt (by omega)
  rw [hb2]
  have : a + 2 ^ 32 - b = (a - b) + 2 ^ 32 := by omega
  rw [this, Nat.add_mod_right]
  exact Nat.mod_eq_of_lt (by omega)

theorem waitCond_iff (frame_id last_frame_id : Nat) (do_exit : Bool)
    (hf : frame_id < 2 ^ 32) :
    waitCond frame_id last_frame_id do_exit = true
      ↔ (frame_id > last_frame_id ∧ (frame_id : Int) - (last_frame_id : Int) < 8
          ∧ do_exit = false) := by
  unfold waitCond
  by_cases hlt : last_frame_id < frame_id
  · rw [subU32_of_le frame_id last_frame_id hf (by omega)]
    cases do_exit <;> simp [hlt]
    omega
  · simp [hlt]

theorem processFrame_waiting (s : LoggerdState) (do_exit : Bool) (inp : EncInput)
    (w : Worker) (extra : VIPCBufExtra) :
    (processFrame s do_exit inp w extra).loc = Loc.waiting extra
      ↔ (w.front = false ∧ waitCond extra.frame_id s.last_frame_id do_exit = true) := by
  unfold processFrame
  cases hb : (!w.front && waitCond extra.frame_id s.last_frame_id do_exit)
  · have h1b : ¬ (w.front = false ∧ waitCond extra.frame_id s.last_frame_id do_exit = true) := by
      intro h
      simp [h.1, h.2] at hb
    cases hd : do_exit
    · simp only [if_false, Bool.false_eq_true]
      rw [hd] at h1b
      constructor
      · intro h; simp at h
      · intro h; exact absurd h h1b
    · simp only [if_true, if_false, Bool.false_eq_true]
      rw [hd] at h1b
      constructor
      · intro h
        unfold leaveInner at h
        cases hl : w.lh <;> rw [hl] at h <;> simp at h
      · intro h; exact absurd h h1b
  · simp only [if_true]
    simpa using hb

theorem logRawClip_cnt (inp : EncInput) (extra : VIPCBufExtra) (w : Worker) :
    (logRawClip inp extra w).cnt = w.cnt := by
  unfold logRawClip
  split
  · split <;> rfl
  · rfl

theorem processFrame_proceeds (s : LoggerdState) (do_exit : Bool) (inp : EncInput)
    (w : Worker) (extra : VIPCBufExtra)
    (hwait : (!w.front && waitCond extra.frame_id s.last_frame_id do_exit) = false)
    (hex : do_exit = false) :
    (processFrame s do_exit inp w extra).loc = Loc.inner ∧
    (processFrame s do_exit inp w extra).cnt = wrapInt32 (w.cnt + 1) := by
  unfold processFrame
  rw [hwait, hex]
  simp only [Bool.false_eq_true, if_false, logRawClip_cnt, encodeAndLog]
  refine ⟨trivial, ?_⟩
  split <;> rfl

/-- C3 (encoder wait for ingest). For 32-bit frame ids the wait condition of the rear
camera worker holds exactly when frame_id > last_frame_id, frame_id - last_frame_id < 8
and shutdown is not requested; the rear worker blocks on a frame exactly when it
holds, and when it does not hold and no shutdown is requested the worker goes on to
encode and count the frame. With frame_id = 50 and ingest at 45 or beyond, the worker waits exactly as long as
last_frame_id is below 50; with frame_id = 10000 and last_frame_id = 45 it does not wait. -/
theorem encoder_wait_for_ingest (frame_id last_frame_id : Nat) (do_exit : Bool)
    (hf : frame_id < 2 ^ 32) (hl : last_frame_id < 2 ^ 32) :
    (waitCond frame_id last_frame_id do_exit = true
      ↔ (frame_id > last_frame_id ∧ (frame_id : Int) - (last_frame_id : Int) < 8
          ∧ do_exit = false)) ∧
    (∀ (s : LoggerdState) (inp : EncInput) (w : Worker) (extra : VIPCBufExtra),
      w.front = false → extra.frame_id = frame_id → s.last_frame_id = last_frame_id →
      (((processFrame s do_exit inp w extra).loc = Loc.waiting extra
          ↔ waitCond frame_id last_frame_id do_exit = true) ∧
        (waitCond frame_id last_frame_id do_exit = false → do_exit = false →
          ((processFrame s do_exit inp w extra).loc = Loc.inner ∧
            (processFrame s do_exit inp w extra).cnt = wrapInt32 (w.cnt + 1))))) ∧
    (frame_id = 50 → 45 ≤ last_frame_id → do_exit = false →
      (waitCond frame_id last_frame_id do_exit = true ↔ last_frame_id < 50)) ∧
    (frame_id = 10000 → last_frame_id = 45 → waitCond frame_id last_frame_id do_exit = false) := by
  have hiff := waitCond_iff frame_id last_frame_id do_exit hf
  refine ⟨hiff, ?_, ?_, ?_⟩
  · intro s inp w extra hw he hs
    refine ⟨?_, ?_⟩
    · rw [processFrame_waiting, he, hs]
      simp [hw]
    · intro hwait hex
      exact processFrame_proceeds s do_exit inp w extra (by rw [he, hs, hwait]; simp) hex
  · intro h50 h45 hex
    rw [hiff]
    constructor
    · intro h; omega
    · intro h; exact ⟨by omega, by omega, hex⟩
  · intro h1 h2
    have : ¬ (waitCond frame_id last_frame_id do_exit = true) := by
      rw [hiff]; intro h; omega
    simpa using this

/-- C3 witness: the rear worker with frame 50 while ingest is at frame 45. -/
theorem encoder_wait_for_ingest_witness :
    (50 < 2 ^ 32 ∧ 45 < 2 ^ 32) ∧ waitCond 50 45 false = true :=
  ⟨by decide,
   ((encoder_wait_for_ingest 50 45 false (by decide) (by decide)).2.2.1 rfl (by decide) rfl).2
     (by decide)⟩

/-! ## Segment monotonicity seen by an encoder -/

theorem should_rotate_lt (front : Bool) (frame_id : Nat) (encoder_segment : Int)
    (s : LoggerdState) (h : should_rotate front frame_id encoder_segment s = true) :
    encoder_segment < s.rotate_segment := by
  unfold should_rotate at h
  cases front <;> simp at h
  · exact h.2
  · exact h

theorem processFrame_segment_cases (s : LoggerdState) (do_exit : Bool) (inp : EncInput)
    (w : Worker) (extra : VIPCBufExtra) :
    (processFrame s do_exit inp w extra).encoder_segment = w.encoder_segment ∨
    (w.encoder_segment < (processFrame s do_exit inp w extra).encoder_segment ∧
      (processFrame s do_exit inp w extra).encoder_segment = s.rotate_segment) := by
  rw [processFrame_encoder_segment]
  split
  · exact Or.inl rfl
  · split
    · rename_i h
      exact Or.inr ⟨should_rotate_lt _ _ _ _ h, rfl⟩
    · exact Or.inl rfl

theorem worker_step_segment_cases (s : LoggerdState) (do_exit : Bool) (inp : EncInput)
    (w : Worker) :
    (w.step s do_exit inp).encoder_segment = w.encoder_segment ∨
    (w.encoder_segment < (w.step s do_exit inp).encoder_segment ∧
      (w.step s do_exit inp).encoder_segment = s.rotate_segment) := by
  unfold Worker.step
  cases hloc : w.loc with
  | entry => simp only []; split <;> exact Or.inl rfl
  | outer =>
    simp only []
    split
    · exact Or.inl rfl
    · split <;> exact Or.inl rfl
  | inner =>
    simp only []
    split
    · exact Or.inl (leaveInner_encoder_segment w)
    · cases inp.frame with
      | none => exact Or.inl (leaveInner_encoder_segment w)
      | some extra => exact processFrame_segment_cases s do_exit inp w extra
  | waiting extra => exact processFrame_segment_cases s do_exit inp w extra
  | returned => exact Or.inl rfl

theorem sys_step_segment_cases (sys : Sys) (e : Event) :
    (sys.step e).worker.encoder_segment = sys.worker.encoder_segment ∨
    (sys.worker.encoder_segment < (sys.step e).worker.encoder_segment ∧
      (sys.step e).worker.encoder_segment = sys.s.rotate_segment) := by
  cases e with
  | signal => exact Or.inl rfl
  | frame_event f => exact Or.inl rfl
  | logger_next path seg => exact Or.inl rfl
  | rotate_tick next =>
    cases next with
    | none => exact Or.inl rfl
    | some p => exact Or.inl rfl
  | encoder inp => exact worker_step_segment_cases sys.s sys.do_exit inp sys.worker

theorem sys_step_segment_le (sys : Sys) (e : Event)
    (hv : segmentOk sys e = true)
    (h : sys.worker.encoder_segment ≤ sys.s.rotate_segment) :
    (sys.step e).worker.encoder_segment ≤ (sys.step e).s.rotate_segment := by
  cases e with
  | signal => exact h
  | frame_event f => exact h
  | logger_next path seg =>
    simp only [segmentOk, Event.segment, decide_eq_true_eq] at hv
    exact le_trans h hv
  | rotate_tick next =>
    cases next with
    | none => exact h
    | some p =>
      obtain ⟨path, seg⟩ := p
      simp only [segmentOk, Event.segment, decide_eq_true_eq] at hv
      exact le_trans h hv
  | encoder inp =>
    have hc := worker_step_segment_cases sys.s sys.do_exit inp sys.worker
    show (sys.worker.step sys.s sys.do_exit inp).encoder_segment ≤ sys.s.rotate_segment
    rcases hc with hc | hc
    · rw [hc]; exact h
    · rw [hc.2]

theorem run_segment_le (evs : List Event) (sys : Sys)
    (hmono : segmentsMonotone sys evs = true)
    (h : sys.worker.encoder_segment ≤ sys.s.rotate_segment) :
    (sys.run evs).worker.encoder_segment ≤ (sys.run evs).s.rotate_segment := by
  induction evs generalizing sys with
  | nil => exact h
  | cons e es ih =>
    simp only [segmentsMonotone, Bool.and_eq_true] at hmono
    exact ih (sys.step e) hmono.2 (sys_step_segment_le sys e hmono.1 h)

theorem run_segment_mono (evs : List Event) (sys : Sys) :
    sys.worker.encoder_segment ≤ (sys.run evs).worker.encoder_segment := by
  induction evs generalizing sys with
  | nil => exact le_refl _
  | cons e es ih =>
    have h1 : sys.worker.encoder_segment ≤ (sys.step e).worker.encoder_segment := by
      rcases sys_step_segment_cases sys e with hc | hc
      · rw [hc]
      · exact le_of_lt hc.1
    exact le_trans h1 (ih (sys.step e))

theorem run_append (sys : Sys) (a b : List Event) :
    sys.run (a ++ b) = (sys.run a).run b := by
  simp [Sys.run, List.foldl_append]

/-- C4 (segment monotonicity seen by an encoder). When every call of logger_next writes a
segment number at least as large as the one before, then after any sequence of actions
of the process encoder_segment ≤ rotate_segment. The worker starts with
encoder_segment = -1; one more action either leaves encoder_segment unchanged or sets it
to the current rotate_segment, which is then strictly larger; and encoder_segment at any
earlier point of the run is at most its value at the end. -/
theorem encoder_segment_monotone (front raw_clips : Bool) (evs : List Event)
    (hmono : segmentsMonotone (Sys.init front raw_clips) evs = true) :
    (Sys.init front raw_clips).worker.encoder_segment = -1 ∧
    ((Sys.init front raw_clips).run evs).worker.encoder_segment
      ≤ ((Sys.init front raw_clips).run evs).s.rotate_segment ∧
    (∀ e : Event,
      (((Sys.init front raw_clips).run evs).step e).worker.encoder_segment
          = ((Sys.init front raw_clips).run evs).worker.encoder_segment ∨
      (((Sys.init front raw_clips).run evs).worker.encoder_segment
          < (((Sys.init front raw_clips).run evs).step e).worker.encoder_segment ∧
        (((Sys.init front raw_clips).run evs).step e).worker.encoder_segment
          = ((Sys.init front raw_clips).run evs).s.rotate_segment)) ∧
    (∀ n : Nat,
      ((Sys.init front raw_clips).run (evs.take n)).worker.encoder_segment
        ≤ ((Sys.init front raw_clips).run evs).worker.encoder_segment) := by
  refine ⟨rfl, ?_, ?_, ?_⟩
  · exact run_segment_le evs _ hmono (show (-1 : Int) ≤ 0 by decide)
  · intro e
    exact sys_step_segment_cases _ e
  · intro n
    have : (Sys.init front raw_clips).run evs
        = ((Sys.init front raw_clips).run (evs.take n)).run (evs.drop n) := by
      rw [← run_append, List.take_append_drop]
    rw [this]
    exact run_segment_mono _ _

/-- C4 witness: the sample run of the rear worker satisfies the assumption on the logger
and ends with the worker in segment 1, the segment of the logger. -/
theorem encoder_segment_monotone_witness :
    segmentsMonotone (Sys.init false false) sampleRun = true ∧
    ((Sys.init false false).run sampleRun).worker.encoder_segment = 1 ∧
    ((Sys.init false false).run sampleRun).worker.encoder_segment
      ≤ ((Sys.init false false).run sampleRun).s.rotate_segment :=
  ⟨by decide, by decide, (encoder_segment_monotone false false sampleRun (by decide)).2.1⟩

/-! ## Writer handle balance of an encoder worker -/

theorem heldFrom_append (held : List Nat) (a b : List Effect) :
    heldFrom held (a ++ b) = heldFrom (heldFrom held a) b := by
  simp [heldFrom, List.foldl_append]

theorem heldBound_append (held : List Nat) (a b : List Effect) :
    heldBound held (a ++ b) ↔ (heldBound held a ∧ heldBound (heldFrom held a) b) := by
  induction a generalizing held with
  | nil =>
    simp only [List.nil_append, heldBound, heldFrom, List.foldl_nil]
    constructor
    · intro h
      refine ⟨?_, h⟩
      cases b with
      | nil => exact h
      | cons e es => exact h.1
    · intro h; exact h.2
  | cons e es ih =>
    show (held.length ≤ 1 ∧ heldBound (e.applyHeld held) (es ++ b))
      ↔ ((held.length ≤ 1 ∧ heldBound (e.applyHeld held) es)
          ∧ heldBound (heldFrom (e.applyHeld held) es) b)
    rw [ih, and_assoc]

theorem heldBound_take (effs : List Effect) (held : List Nat) (h : heldBound held effs)
    (n : Nat) : (heldFrom held (effs.take n)).length ≤ 1 := by
  induction effs generalizing held n with
  | nil =>
    simp only [List.take_nil, heldFrom, List.foldl_nil]
    exact h
  | cons e es ih =>
    cases n with
    | zero => simp only [List.take_zero, heldFrom, List.foldl_nil]; exact h.1
    | succ n =>
      simp only [List.take_succ_cons, heldFrom, List.foldl_cons]
      exact ih (e.applyHeld held) h.2 n

theorem handleOk_append (w : Worker) (new : List Effect) (lh' : Option Nat)
    (h : HandleOk w) (hb : heldBound w.lh.toList new)
    (hf : heldFrom w.lh.toList new = lh'.toList) (w' : Worker)
    (he : w'.effects = w.effects ++ new) (hl : w'.lh = lh') : HandleOk w' := by
  obtain ⟨h1, h2⟩ := h
  unfold HandleOk
  unfold heldAfter at h2 ⊢
  rw [he, hl, heldBound_append, heldFrom_append, h2]
  exact ⟨⟨h1, hb⟩, hf⟩

theorem leaveInner_handleOk (w : Worker) (h : HandleOk w) :
    HandleOk (leaveInner w) ∧ (leaveInner w).lh = none ∧ (leaveInner w).loc = Loc.outer := by
  unfold leaveInner
  cases hl : w.lh with
  | none =>
    dsimp only
    refine ⟨?_, rfl, rfl⟩
    exact handleOk_append w [] none h (by rw [hl]; simp [heldBound])
      (by rw [hl]; rfl) _ (by simp) rfl
  | some x =>
    dsimp only
    refine ⟨?_, rfl, rfl⟩
    exact handleOk_append w [Effect.lh_close x] none h
      (by rw [hl]; simp [heldBound, Effect.applyHeld])
      (by rw [hl]; simp [heldFrom, Effect.applyHeld]) _ rfl rfl

theorem rotateEncoder_handleOk (s : LoggerdState) (inp : EncInput) (w : Worker)
    (h : HandleOk w) : HandleOk (rotateEncoder s inp w) := by
  refine handleOk_append w
    ([Effect.encoder_rotate s.segment_path s.rotate_segment]
      ++ (if w.raw_clips then [Effect.rawlogger_rotate s.segment_path s.rotate_segment] else [])
      ++ (match w.lh with
          | some h => [Effect.lh_close h]
          | none => [])
      ++ [Effect.logger_get_handle inp.new_handle])
    inp.new_handle h ?_ ?_ (rotateEncoder s inp w) ?_ rfl
  · cases w.raw_clips <;> cases w.lh <;> cases inp.new_handle <;>
      simp [heldBound, Effect.applyHeld]
  · cases w.raw_clips <;> cases w.lh <;> cases inp.new_handle <;>
      simp [heldFrom, Effect.applyHeld]
  · simp [rotateEncoder, List.append_assoc]

theorem encodeAndLog_handleOk (inp : EncInput) (extra : VIPCBufExtra) (w : Worker)
    (h : HandleOk w) : HandleOk (encodeAndLog inp extra w) := by
  refine handleOk_append w
    ([Effect.zmq_send
        { frame_id := extra.frame_id
          type := if w.front then .FRONT else .FULL_H_E_V_C
          encode_id := w.cnt
          segment_num := inp.out_segment
          segment_id := inp.out_id }]
      ++ (match w.lh with
          | some h => [Effect.lh_log h
              { frame_id := extra.frame_id
                type := if w.front then .FRONT else .FULL_H_E_V_C
                encode_id := w.cnt
                segment_num := inp.out_segment
                segment_id := inp.out_id }]
          | none => []))
    w.lh h ?_ ?_ (encodeAndLog inp extra w) ?_ rfl
  · cases w.lh <;> simp [heldBound, Effect.applyHeld]
  · cases w.lh <;> simp [heldFrom, Effect.applyHeld]
  · simp [encodeAndLog, List.append_assoc]

theorem logRawClip_handleOk (inp : EncInput) (extra : VIPCBufExtra) (w : Worker)
    (h : HandleOk w) : HandleOk (logRawClip inp extra w) := by
  unfold logRawClip
  split
  · split
    · rename_i out_segment out_id _
      refine handleOk_append w _ w.lh h ?_ ?_ _ rfl rfl
      · cases w.lh <;> simp [heldBound, Effect.applyHeld]
      · cases w.lh <;> simp [heldFrom, Effect.applyHeld]
    · exact h
  · exact h

theorem processFrame_handleInv (s : LoggerdState) (do_exit : Bool) (inp : EncInput)
    (w : Worker) (extra : VIPCBufExtra) (h : HandleOk w) :
    HandleInv (processFrame s do_exit inp w extra) := by
  unfold processFrame
  split
  · exact ⟨h.1, h.2, by simp⟩
  · split
    · obtain ⟨h1, h2, h3⟩ := leaveInner_handleOk w h
      exact ⟨h1.1, h1.2, fun _ => h2⟩
    · have hw1 : HandleOk (if should_rotate w.front extra.frame_id w.encoder_segment s
          then rotateEncoder s inp w else w) := by
        split
        · exact rotateEncoder_handleOk s inp w h
        · exact h
      have hw3 := logRawClip_handleOk inp extra _ (encodeAndLog_handleOk inp extra _ hw1)
      exact ⟨hw3.1, hw3.2, by simp⟩

theorem worker_step_handleInv (s : LoggerdState) (do_exit : Bool) (inp : EncInput)
    (w : Worker) (h : HandleInv w) : HandleInv (w.step s do_exit inp) := by
  obtain ⟨h1, h2, h3⟩ := h
  unfold Worker.step
  cases hloc : w.loc with
  | entry =>
    have hl := h3 (Or.inl hloc)
    simp only []
    split <;> exact ⟨h1, h2, fun _ => hl⟩
  | outer =>
    have hl := h3 (Or.inr (Or.inl hloc))
    simp only []
    split
    · exact ⟨h1, h2, fun _ => hl⟩
    · split
      · exact ⟨h1, h2, fun _ => hl⟩
      · exact ⟨h1, h2, fun _ => hl⟩
  | inner =>
    simp only []
    split
    · obtain ⟨g1, g2, g3⟩ := leaveInner_handleOk w ⟨h1, h2⟩
      exact ⟨g1.1, g1.2, fun _ => g2⟩
    · cases inp.frame with
      | none =>
        obtain ⟨g1, g2, g3⟩ := leaveInner_handleOk w ⟨h1, h2⟩
        exact ⟨g1.1, g1.2, fun _ => g2⟩
      | some extra => exact processFrame_handleInv s do_exit inp w extra ⟨h1, h2⟩
  | waiting extra => exact processFrame_handleInv s do_exit inp w extra ⟨h1, h2⟩
  | returned => exact ⟨h1, h2, h3⟩

theorem sys_step_handleInv (sys : Sys) (e : Event) (h : HandleInv sys.worker) :
    HandleInv (sys.step e).worker := by
  cases e with
  | signal => exact h
  | frame_event f => exact h
  | logger_next path seg => exact h
  | rotate_tick next =>
    cases next with
    | none => exact h
    | some p => exact h
  | encoder inp => exact worker_step_handleInv sys.s sys.do_exit inp sys.worker h

theorem run_handleInv (evs : List Event) (sys : Sys) (h : HandleInv sys.worker) :
    HandleInv (sys.run evs).worker := by
  induction evs generalizing sys with
  | nil => exact h
  | cons e es ih => exact ih (sys.step e) (sys_step_handleInv sys e h)

/-- C9 (writer handle balance). After any sequence of actions of the process (frames,
rotations, ring failures with reconnect, shutdown, in any interleaving), at no point of
the calls the worker has made were two writer handles open, so on a rotation the handle
held is closed before the next one is acquired; the handle open at the end is the one
in lh; and when the thread function has returned, lh is NULL and no handle is open. -/
theorem writer_handle_balance (front raw_clips : Bool) (evs : List Event) :
    (∀ n : Nat,
      (heldAfter (((Sys.init front raw_clips).run evs).worker.effects.take n)).length ≤ 1) ∧
    heldAfter ((Sys.init front raw_clips).run evs).worker.effects
      = ((Sys.init front raw_clips).run evs).worker.lh.toList ∧
    (((Sys.init front raw_clips).run evs).worker.loc = Loc.returned →
      ((Sys.init front raw_clips).run evs).worker.lh = none ∧
      heldAfter ((Sys.init front raw_clips).run evs).worker.effects = []) := by
  have h0 : HandleInv (Sys.init front raw_clips).worker :=
    ⟨by simp [Sys.init, Worker.init, heldBound], rfl, fun _ => rfl⟩
  obtain ⟨h1, h2, h3⟩ := run_handleInv evs _ h0
  refine ⟨fun n => heldBound_take _ [] h1 n, h2, ?_⟩
  intro hr
  have hl := h3 (Or.inr (Or.inr hr))
  refine ⟨hl, ?_⟩
  rw [h2, hl]
  rfl

/-- C9 witness: in the sample run the thread function returns, with two handles acquired
and both closed. -/
theorem writer_handle_balance_witness :
    ((Sys.init false false).run sampleRun).worker.loc = Loc.returned ∧
    ((Sys.init false false).run sampleRun).worker.lh = none ∧
    heldAfter ((Sys.init false false).run sampleRun).worker.effects = [] :=
  ⟨by decide, (writer_handle_balance false false sampleRun).2.2 (by decide)⟩

/-! ## Timestamp patch -/

theorem bytesOfU64_length (t : Nat) : (bytesOfU64 t).length = 8 := by
  simp [bytesOfU64]

theorem u64OfBytes_bytesOfU64 (t : Nat) (ht : t < 2 ^ 64) : u64OfBytes (bytesOfU64 t) = t := by
  simp only [u64OfBytes, bytesOfU64, List.range, List.range.loop, List.map, List.take,
    List.reverse_cons, List.reverse_nil, List.nil_append, List.cons_append, List.foldl]
  norm_num
  omega

theorem tsPatch_sentinel (ndebug : Bool) (data : List Nat) (t : Nat)
    (hlen : 0x18 ≤ data.length)
    (hsent : (data.drop 0xC).take 4 = [0x02, 0x00, 0x01, 0x00]) :
    tsPatch ndebug data t = .ok (data.take 0x10 ++ bytesOfU64 t ++ data.drop 0x18) := by
  have h1 : memcmpEq data 0xC [0x02, 0x00, 0x01, 0x00] = some true := by
    unfold memcmpEq
    rw [if_pos (by simp only [List.length_cons, List.length_nil]; omega)]
    simp only [List.length_cons, List.length_nil]
    simp [hsent]
  have h2 : memcpy data 0x10 (bytesOfU64 t)
      = some (data.take 0x10 ++ bytesOfU64 t ++ data.drop 0x18) := by
    unfold memcpy
    rw [bytesOfU64_length, if_pos (by omega)]
  unfold tsPatch
  cases ndebug
  · simp only [h1, h2, Bool.false_eq_true, if_false]
  · simp only [h2, if_true]

theorem tsPatch_ndebug (data : List Nat) (t : Nat) (hlen : 0x18 ≤ data.length) :
    tsPatch true data t = .ok (data.take 0x10 ++ bytesOfU64 t ++ data.drop 0x18) := by
  have h2 : memcpy data 0x10 (bytesOfU64 t)
      = some (data.take 0x10 ++ bytesOfU64 t ++ data.drop 0x18) := by
    unfold memcpy
    rw [bytesOfU64_length, if_pos (by omega)]
  unfold tsPatch
  simp only [h2, if_true]

theorem tsPatch_assert (data : List Nat) (t : Nat) (hlen : 0x18 ≤ data.length)
    (hsent : (data.drop 0xC).take 4 ≠ [0x02, 0x00, 0x01, 0x00]) :
    tsPatch false data t = .error Abort.assertion := by
  have h1 : memcmpEq data 0xC [0x02, 0x00, 0x01, 0x00] = some false := by
    unfold memcmpEq
    rw [if_pos (by simp only [List.length_cons, List.length_nil]; omega)]
    simp only [List.length_cons, List.length_nil]
    simp [hsent]
  unfold tsPatch
  simp only [h1, Bool.false_eq_true, if_false]

/-- The patched buffer has the length of the received one, holds the eight bytes of the
time at 0x10, and agrees with the received buffer everywhere else. -/
theorem patched_buffer (data : List Nat) (t : Nat) (hlen : 0x18 ≤ data.length) :
    (data.take 0x10 ++ bytesOfU64 t ++ data.drop 0x18).length = data.length ∧
    ((data.take 0x10 ++ bytesOfU64 t ++ data.drop 0x18).drop 0x10).take 8 = bytesOfU64 t ∧
    (∀ j, (j < 0x10 ∨ 0x18 ≤ j) →
      (data.take 0x10 ++ bytesOfU64 t ++ data.drop 0x18)[j]? = data[j]?) := by
  have hb := bytesOfU64_length t
  have ht : (data.take 0x10).length = 0x10 := by
    rw [List.length_take]; omega
  refine ⟨?_, ?_, ?_⟩
  · simp only [List.length_append, List.length_drop, ht, hb]; omega
  · rw [List.append_assoc, List.drop_append_of_le_length (by omega)]
    rw [List.drop_of_length_le (by omega), List.nil_append]
    rw [List.take_append_of_le_length (by omega), List.take_of_length_le (by omega)]
  · intro j hj
    rcases hj with hj | hj
    · rw [List.append_assoc, List.getElem?_append_left (by omega)]
      rw [List.getElem?_take_of_lt hj]
    · rw [List.getElem?_append_right (by simp only [List.length_append, ht, hb]; omega)]
      simp only [List.length_append, ht, hb, List.getElem?_drop]
      congr 1
      omega

theorem handleMessage_logged_of_patch (ndebug : Bool) (st : MainState) (m : Msg)
    (data : List Nat) (hlive : st.aborted = none) (hts : m.sock ∈ st.ts_replace_sock)
    (hp : tsPatch ndebug m.data m.recv_time = .ok data) :
    (handleMessage ndebug st m).logged
      = st.logged ++ [{ sock := m.sock, data := data,
                        qlog := decide (st.qlog_counter m.sock = 0) }] := by
  unfold handleMessage
  rw [hlive]
  simp only [hts, if_true, hp]
  cases qlogAdvance (st.qlog_counter m.sock) (st.qlog_freqs m.sock) <;> rfl


/-- C5 (timestamp patch). For a message of length at least 0x18 received by a live
process on a timestamp-patchable socket, with bytes 02 00 01 00 at offsets 0x0C to 0x0F
and a 64-bit receive time: exactly one entry is logged for it, its buffer has the length
of the received one, its bytes at offsets 0x10 to 0x17 are the little-endian encoding of
the receive time (they decode to it), and every byte at another offset is the received
byte. This holds with assertions compiled in and with NDEBUG. -/
theorem timestamp_patch (ndebug : Bool) (st : MainState) (m : Msg)
    (hlive : st.aborted = none) (hts : m.sock ∈ st.ts_replace_sock)
    (hlen : 0x18 ≤ m.data.length)
    (hsent : (m.data.drop 0xC).take 4 = [0x02, 0x00, 0x01, 0x00])
    (htime : m.recv_time < 2 ^ 64) :
    ∃ entry : LogEntry,
      (handleMessage ndebug st m).logged = st.logged ++ [entry] ∧
      entry.data.length = m.data.length ∧
      (entry.data.drop 0x10).take 8 = bytesOfU64 m.recv_time ∧
      u64OfBytes ((entry.data.drop 0x10).take 8) = m.recv_time ∧
      (∀ i, i < 8 → entry.data[0x10 + i]? = some ((m.recv_time / 256 ^ i) % 256)) ∧
      (∀ j, (j < 0x10 ∨ 0x18 ≤ j) → entry.data[j]? = m.data[j]?) := by
  have hp := tsPatch_sentinel ndebug m.data m.recv_time hlen hsent
  obtain ⟨p1, p2, p3⟩ := patched_buffer m.data m.recv_time hlen
  refine ⟨_, handleMessage_logged_of_patch ndebug st m _ hlive hts hp, p1, p2, ?_, ?_, p3⟩
  · show u64OfBytes (((m.data.take 0x10 ++ bytesOfU64 m.recv_time ++ m.data.drop 0x18).drop
      0x10).take 8) = m.recv_time
    rw [p2]
    exact u64OfBytes_bytesOfU64 _ htime
  · intro i hi
    show (m.data.take 0x10 ++ bytesOfU64 m.recv_time ++ m.data.drop 0x18)[0x10 + i]? = _
    have ht : (m.data.take 0x10).length = 0x10 := by
      rw [List.length_take]; omega
    rw [List.append_assoc, List.getElem?_append_right (by omega), ht]
    rw [List.getElem?_append_left (by rw [bytesOfU64_length]; omega)]
    simp only [Nat.add_sub_cancel_left, bytesOfU64]
    rw [List.getElem?_map, List.getElem?_range hi]
    rfl

/-- C5 witness: a 24-byte message with the sentinel, received at time 258. -/
theorem timestamp_patch_witness :
    (sampleMain.aborted = none ∧ sentinelMsg.sock ∈ sampleMain.ts_replace_sock ∧
      0x18 ≤ sentinelMsg.data.length ∧
      (sentinelMsg.data.drop 0xC).take 4 = [0x02, 0x00, 0x01, 0x00] ∧
      sentinelMsg.recv_time < 2 ^ 64) ∧
    ∃ entry : LogEntry,
      (handleMessage false sampleMain sentinelMsg).logged = sampleMain.logged ++ [entry] ∧
      entry.data.length = sentinelMsg.data.length ∧
      (entry.data.drop 0x10).take 8 = bytesOfU64 sentinelMsg.recv_time ∧
      u64OfBytes ((entry.data.drop 0x10).take 8) = sentinelMsg.recv_time ∧
      (∀ i, i < 8 → entry.data[0x10 + i]? = some ((sentinelMsg.recv_time / 256 ^ i) % 256)) ∧
      (∀ j, (j < 0x10 ∨ 0x18 ≤ j) → entry.data[j]? = sentinelMsg.data[j]?) :=
  ⟨by decide,
   timestamp_patch false sampleMain sentinelMsg (by decide) (by decide) (by decide)
     (by decide) (by decide)⟩

/-- C6 counterexample: a 24-byte message without the sentinel on a timestamp-patchable
socket. With assertions compiled in the process aborts and nothing is logged; with
NDEBUG the message is logged with bytes 0x10 to 0x17 overwritten. In neither build is
the received buffer logged unchanged. -/
theorem patch_missing_sentinel_counterexample :
    noSentinelMsg.sock ∈ sampleMain.ts_replace_sock ∧
    (noSentinelMsg.data.drop 0xC).take 4 ≠ [0x02, 0x00, 0x01, 0x00] ∧
    (handleMessage false sampleMain noSentinelMsg).logged = [] ∧
    (handleMessage false sampleMain noSentinelMsg).aborted = some Abort.assertion ∧
    (handleMessage true sampleMain noSentinelMsg).logged.map LogEntry.data
      = [List.replicate 16 0 ++ [1, 0, 0, 0, 0, 0, 0, 0]] ∧
    (handleMessage true sampleMain noSentinelMsg).logged.map LogEntry.data
      ≠ [noSentinelMsg.data] := by
  decide

/-- C6 as amended. For a message of length at least 0x18 received by a live process on a
timestamp-patchable socket whose bytes at offsets 0x0C to 0x0F are not 02 00 01 00: with
assertions compiled in, the assert fails, the process aborts and the message is not
logged; with NDEBUG the patch is not skipped: the message is logged with bytes 0x10 to
0x17 overwritten by the receive time and all other bytes unchanged. -/
theorem patch_missing_sentinel (st : MainState) (m : Msg)
    (hlive : st.aborted = none) (hts : m.sock ∈ st.ts_replace_sock)
    (hlen : 0x18 ≤ m.data.length)
    (hsent : (m.data.drop 0xC).take 4 ≠ [0x02, 0x00, 0x01, 0x00]) :
    ((handleMessage false st m).aborted = some Abort.assertion ∧
      (handleMessage false st m).logged = st.logged) ∧
    (∃ entry : LogEntry,
      (handleMessage true st m).logged = st.logged ++ [entry] ∧
      entry.data = m.data.take 0x10 ++ bytesOfU64 m.recv_time ++ m.data.drop 0x18 ∧
      entry.data.length = m.data.length ∧
      (entry.data.drop 0x10).take 8 = bytesOfU64 m.recv_time ∧
      (∀ j, (j < 0x10 ∨ 0x18 ≤ j) → entry.data[j]? = m.data[j]?)) := by
  constructor
  · have hp := tsPatch_assert m.data m.recv_time hlen hsent
    unfold handleMessage
    rw [hlive]
    simp only [hts, if_true, hp]
    exact ⟨trivial, trivial⟩
  · have hp := tsPatch_ndebug m.data m.recv_time hlen
    obtain ⟨p1, p2, p3⟩ := patched_buffer m.data m.recv_time hlen
    exact ⟨_, handleMessage_logged_of_patch true st m _ hlive hts hp, rfl, p1, p2, p3⟩

/-- C6 witness: the message of 24 zero bytes on the timestamp-patchable socket. -/
theorem patch_missing_sentinel_witness :
    (sampleMain.aborted = none ∧ noSentinelMsg.sock ∈ sampleMain.ts_replace_sock ∧
      0x18 ≤ noSentinelMsg.data.length ∧
      (noSentinelMsg.data.drop 0xC).take 4 ≠ [0x02, 0x00, 0x01, 0x00]) ∧
    (handleMessage false sampleMain noSentinelMsg).aborted = some Abort.assertion ∧
    (handleMessage false sampleMain noSentinelMsg).logged = sampleMain.logged :=
  ⟨by decide,
   (patch_missing_sentinel sampleMain noSentinelMsg (by decide) (by decide) (by decide)
     (by decide)).1⟩


/-! ## The frame id stored by the ingest loop -/

theorem handleMessage_frame_sock (ndebug : Bool) (st : MainState) (m : Msg) :
    (handleMessage ndebug st m).frame_sock = st.frame_sock := by
  unfold handleMessage
  cases st.aborted with
  | some e => rfl
  | none =>
    dsimp only
    split
    · rfl
    · split <;> rfl

theorem handleMessage_last_frame_id (ndebug : Bool) (st : MainState) (m : Msg) (fs : Nat)
    (hfs : st.frame_sock = some fs) (hlive : st.aborted = none) :
    (handleMessage ndebug st m).s.last_frame_id
      = ((if m.sock = fs then m.frame_id else none).getD st.s.last_frame_id) := by
  have hs : (handleMessage ndebug st m).s = trackFrame st m := by
    unfold handleMessage
    rw [hlive]
    dsimp only
    split
    · rfl
    · split <;> rfl
  rw [hs]
  unfold trackFrame
  rw [hfs]
  by_cases h : m.sock = fs
  · subst h
    cases m.frame_id <;> simp
  · have h2 : ¬ (some fs = some m.sock) := fun h3 => h (Option.some.inj h3).symm
    simp [h, h2]

theorem drainMessages_last_frame_id (ndebug : Bool) (fs : Nat) (msgs : List Msg)
    (st : MainState) (hfs : st.frame_sock = some fs)
    (hlive : (drainMessages ndebug st msgs).aborted = none) :
    (drainMessages ndebug st msgs).s.last_frame_id
      = (frameIds fs msgs).foldl (fun _ f => f) st.s.last_frame_id := by
  induction msgs generalizing st with
  | nil => rfl
  | cons m ms ih =>
    have hstep : drainMessages ndebug st (m :: ms)
        = drainMessages ndebug (handleMessage ndebug st m) ms := rfl
    rw [hstep] at hlive ⊢
    have h1 := (drainMessages_live ndebug fs ms _ hlive).1
    have h0 := (handleMessage_live ndebug fs st m h1).1
    rw [ih _ (by rw [handleMessage_frame_sock]; exact hfs) hlive]
    rw [handleMessage_last_frame_id ndebug st m fs hfs h0]
    unfold frameIds
    rw [List.filterMap_cons]
    cases hx : (if m.sock = fs then m.frame_id else none) <;> simp

theorem foldl_latest (l : List Nat) (a : Nat) (hne : l ≠ []) :
    l.foldl (fun _ f => f) a = l.getLast hne := by
  induction l generalizing a with
  | nil => exact absurd rfl hne
  | cons x xs ih =>
    cases xs with
    | nil => rfl
    | cons y ys =>
      rw [List.foldl_cons, ih x (by simp)]
      exact (List.getLast_cons (by simp)).symm

theorem foldl_max_sorted (l : List Nat) (a : Nat) (hne : l ≠ [])
    (ha : ∀ x ∈ l, a ≤ x) (hs : List.Pairwise (fun x y => x ≤ y) l) :
    l.foldl max a = l.getLast hne := by
  induction l generalizing a with
  | nil => exact absurd rfl hne
  | cons x xs ih =>
    have hax : max a x = x := max_eq_right (ha x (by simp))
    cases xs with
    | nil => simp [hax]
    | cons y ys =>
      rw [List.foldl_cons, hax, List.getLast_cons (by simp)]
      rw [List.pairwise_cons] at hs
      exact ih x (by simp) hs.1 hs.2

/-- C7 counterexample: after the frame events 5 and 3 the stored last_frame_id is 3,
while the highest frame id seen is 5. -/
theorem last_frame_id_counterexample :
    sampleMain.frame_sock = some 2 ∧
    frameIds 2 [frameMsg 5, frameMsg 3] = [5, 3] ∧
    (drainMessages false sampleMain [frameMsg 5, frameMsg 3]).aborted = none ∧
    (drainMessages false sampleMain [frameMsg 5, frameMsg 3]).s.last_frame_id = 3 ∧
    (frameIds 2 [frameMsg 5, frameMsg 3]).foldl max 0 = 5 ∧
    (drainMessages false sampleMain [frameMsg 5, frameMsg 3]).s.last_frame_id
      ≠ (frameIds 2 [frameMsg 5, frameMsg 3]).foldl max 0 := by
  decide

/-- C7 as amended. After the ingest loop has processed, without aborting, a sequence of
messages that contains at least one frame event of the frame topic, last_frame_id is
the frame id of the last of those frame events; it is the maximum of their frame ids
when these arrive in non-decreasing order. -/
theorem last_frame_id_latest (ndebug : Bool) (st : MainState) (fs : Nat) (msgs : List Msg)
    (hfs : st.frame_sock = some fs)
    (hlive : (drainMessages ndebug st msgs).aborted = none)
    (hne : frameIds fs msgs ≠ []) :
    (drainMessages ndebug st msgs).s.last_frame_id = (frameIds fs msgs).getLast hne ∧
    (List.Pairwise (fun x y => x ≤ y) (frameIds fs msgs) →
      (drainMessages ndebug st msgs).s.last_frame_id = (frameIds fs msgs).foldl max 0) := by
  have h := drainMessages_last_frame_id ndebug fs msgs st hfs hlive
  rw [foldl_latest _ _ hne] at h
  refine ⟨h, ?_⟩
  intro hs
  rw [h, foldl_max_sorted _ 0 hne (fun x _ => Nat.zero_le x) hs]

/-- C7 witness: the frame events 5 and 3 leave last_frame_id at 3. -/
theorem last_frame_id_latest_witness :
    (sampleMain.frame_sock = some 2 ∧
      (drainMessages false sampleMain [frameMsg 5, frameMsg 3]).aborted = none ∧
      frameIds 2 [frameMsg 5, frameMsg 3] ≠ []) ∧
    (drainMessages false sampleMain [frameMsg 5, frameMsg 3]).s.last_frame_id = 3 :=
  ⟨by decide,
   (last_frame_id_latest false sampleMain 2 [frameMsg 5, frameMsg 3] (by decide) (by decide)
     (by decide)).1⟩

/-! ## Encode index events and the writer handle -/

/-- C13 (the code at the failing input). The rear worker rotates into segment 0 and then
into segment 1, loses the video ring and reconnects. It is then in the inner loop with
encoder_segment = 1 and lh NULL, and no rotation is due. The frame 3 it encodes next is
published with zmq_send but is not handed to lh_log: the frames published are 1, 2, 3,
the frames logged are 1, 2, and the worker still holds no handle afterwards. -/
theorem encode_index_after_reconnect :
    (((Sys.init false false).run (sampleRun.take 11)).worker.loc = Loc.inner ∧
      ((Sys.init false false).run (sampleRun.take 11)).worker.encoder_segment = 1 ∧
      ((Sys.init false false).run (sampleRun.take 11)).s.rotate_segment = 1 ∧
      ((Sys.init false false).run (sampleRun.take 11)).worker.lh = none) ∧
    publishedFrames ((Sys.init false false).run reconnectRun).worker.effects = [1, 2, 3] ∧
    loggedFrames ((Sys.init false false).run reconnectRun).worker.effects = [1, 2] ∧
    ((Sys.init false false).run reconnectRun).worker.encoder_segment = 1 ∧
    ((Sys.init false false).run reconnectRun).worker.lh = none := by
  decide

/-! ## Segment clock -/

theorem bitLength_zero (fuel : Nat) : bitLength fuel 0 = 0 := by
  cases fuel <;> simp [bitLength]

theorem bitLength_le (fuel n k : Nat) (h : n < 2 ^ k) : bitLength fuel n ≤ k := by
  induction fuel generalizing n k with
  | zero => simp [bitLength]
  | succ f ih =>
    unfold bitLength
    by_cases hn : n = 0
    · simp [hn]
    · rw [if_neg hn]
      cases k with
      | zero => simp at h; omega
      | succ k =>
        have : n / 2 < 2 ^ k := by
          rw [Nat.pow_succ] at h
          omega
        have := ih (n / 2) k this
        omega

/-- The bit length is exact when the bound on the halvings is the number itself. -/
theorem bitLength_spec (fuel n : Nat) (hf : n ≤ fuel) (hn : n ≠ 0) :
    2 ^ (bitLength fuel n - 1) ≤ n ∧ n < 2 ^ bitLength fuel n := by
  induction fuel generalizing n with
  | zero => omega
  | succ f ih =>
    unfold bitLength
    rw [if_neg hn]
    by_cases h2 : n / 2 = 0
    · rw [h2, bitLength_zero]
      have : n = 1 := by omega
      subst this
      simp
    · obtain ⟨l1, l2⟩ := ih (n / 2) (by omega) h2
      have hpos : bitLength f (n / 2) ≠ 0 := by
        intro h0
        rw [h0] at l2
        simp at l2
        exact h2 l2
      obtain ⟨L, hL⟩ := Nat.exists_eq_succ_of_ne_zero hpos
      rw [hL] at l1 l2 ⊢
      simp only [Nat.succ_eq_add_one, Nat.add_sub_cancel] at l1 ⊢
      rw [Nat.pow_succ] at l2 ⊢
      constructor
      · omega
      · omega

theorem roundBinary64_exact (x e : Nat) (hd : 2 ^ e ∣ x) (hlt : x < 2 ^ (e + 53)) :
    roundBinary64 (x : Int) = (x : Int) := by
  unfold roundBinary64
  simp only [Int.natAbs_ofNat]
  by_cases hs : x < 2 ^ 53
  · rw [if_pos hs]
  · rw [if_neg hs]
    have hL : bitLength x x ≤ e + 53 := bitLength_le x x _ hlt
    have hse : bitLength x x - 53 ≤ e := by omega
    have hdvd : 2 ^ (bitLength x x - 53) ∣ x := Nat.dvd_trans (Nat.pow_dvd_pow 2 hse) hd
    have hr : x % 2 ^ (bitLength x x - 53) = 0 := Nat.mod_eq_zero_of_dvd hdvd
    have hpos : 0 < 2 ^ (bitLength x x - 53) := Nat.pow_pos (by decide)
    have hq : x / 2 ^ (bitLength x x - 53) * 2 ^ (bitLength x x - 53) = x :=
      Nat.div_mul_cancel hdvd
    have hneg : ¬ ((x : Int) < 0) := by omega
    simp only [hr, Nat.mul_zero]
    have hc : ¬ (0 > 2 ^ (bitLength x x - 53) ∨ (0 = 2 ^ (bitLength x x - 53) ∧
        x / 2 ^ (bitLength x x - 53) % 2 = 1)) := by
      intro h
      rcases h with h | h
      · omega
      · omega
    rw [if_neg hc, if_neg hneg, hq]

set_option exponentiation.threshold 4096 in
theorem ofExact_exact (x e : Nat) (hd : 2 ^ e ∣ x) (hlt : x < 2 ^ (e + 53))
    (he : e ≤ 2045) : Double.ofExact (x : Int) = .fin (x : Int) := by
  unfold Double.ofExact
  rw [roundBinary64_exact x e hd hlt]
  simp only [Int.natAbs_ofNat]
  have h53 : e + 53 ≤ 2098 := by omega
  have : x < 2 ^ 2098 := lt_of_lt_of_le hlt (Nat.pow_le_pow_right (by decide) h53)
  rw [if_pos this]

theorem segment_length_value : SEGMENT_LENGTH = .fin ((60 * 2 ^ 1074 : Nat) : Int) := by
  decide!

theorem addSegments_succ (n : Nat) (start_ts : Double) :
    addSegments (n + 1) start_ts = Double.add (addSegments n start_ts) SEGMENT_LENGTH := by
  unfold addSegments
  rw [Function.iterate_succ_apply']

set_option exponentiation.threshold 4096 in
theorem addSegments_exact (x e n : Nat) (hd : 2 ^ e ∣ x) (he : e ≤ 1076)
    (hlt : x + n * (60 * 2 ^ 1074) < 2 ^ (e + 53)) :
    addSegments n (.fin (x : Int)) = .fin ((x + n * (60 * 2 ^ 1074) : Nat) : Int) := by
  induction n with
  | zero => rw [Nat.zero_mul, Nat.add_zero]; rfl
  | succ n ih =>
    have hlt2 : x + n * (60 * 2 ^ 1074) < 2 ^ (e + 53) := by
      rw [Nat.succ_mul] at hlt
      omega
    rw [addSegments_succ, ih hlt2, segment_length_value]
    have hsum : ((x + n * (60 * 2 ^ 1074) : Nat) : Int) + ((60 * 2 ^ 1074 : Nat) : Int)
        = ((x + (n + 1) * (60 * 2 ^ 1074) : Nat) : Int) := by
      rw [Nat.succ_mul]
      push_cast
      ring
    show Double.ofExact (((x + n * (60 * 2 ^ 1074) : Nat) : Int) + ((60 * 2 ^ 1074 : Nat) : Int))
      = _
    rw [hsum]
    have h60 : 2 ^ e ∣ 60 * 2 ^ 1074 := by
      have h1 : (2 : Nat) ^ 1076 ∣ 60 * 2 ^ 1074 := ⟨15, by decide!⟩
      exact Nat.dvd_trans (Nat.pow_dvd_pow 2 he) h1
    exact ofExact_exact _ e (Nat.dvd_add hd (Nat.dvd_trans h60 (Nat.dvd_mul_left _ _))) hlt
      (by omega)

theorem clockRun_invariant (tss : List Double) (st : ClockState)
    (h : st.last_rotate_ts = addSegments st.rotations st.start_ts) :
    (clockRun st tss).last_rotate_ts
        = addSegments (clockRun st tss).rotations (clockRun st tss).start_ts ∧
    (clockRun st tss).start_ts = st.start_ts ∧
    (clockRun st tss).rotations ≤ st.rotations + tss.length := by
  induction tss generalizing st with
  | nil => exact ⟨h, rfl, by simp [clockRun]⟩
  | cons ts rest ih =>
    have hstep : clockRun st (ts :: rest) = clockRun (clockTick st ts) rest := rfl
    rw [hstep]
    have h1 : (clockTick st ts).last_rotate_ts
        = addSegments (clockTick st ts).rotations (clockTick st ts).start_ts := by
      unfold clockTick
      split
      · simp only [addSegments_succ, h]
      · exact h
    have h2 : (clockTick st ts).start_ts = st.start_ts := by
      unfold clockTick; split <;> rfl
    have h3 : (clockTick st ts).rotations ≤ st.rotations + 1 := by
      unfold clockTick; split <;> simp
    obtain ⟨i1, i2, i3⟩ := ih (clockTick st ts) h1
    refine ⟨i1, by rw [i2, h2], ?_⟩
    simp only [List.length_cons]
    omega

/-- C8 counterexample: from start_ts = 12.032283805385457 two rotations (at the ticks 73
and 133) leave last_rotate_ts at 132.03228380538548. This is neither the exact value
start_ts + 120 nor the double start_ts + 120, which is 132.03228380538545, and the tick
at 192.03228380538548 triggers no rotation although it is more than 60 after the
double start_ts + 120. -/
theorem segment_clock_counterexample :
    (clockRun (ClockState.init sampleStart) (sampleTicks.take 2)).rotations = 2 ∧
    (clockRun (ClockState.init sampleStart) (sampleTicks.take 2)).last_rotate_ts
      = .fin ((2322736500573475 * 2 ^ 1030 : Nat) : Int) ∧
    (clockRun (ClockState.init sampleStart) (sampleTicks.take 2)).last_rotate_ts
      ≠ .fin ((3386786803896875 * 2 ^ 1026 + 120 * 2 ^ 1074 : Nat) : Int) ∧
    Double.add sampleStart (Double.ofSeconds 120)
      = .fin ((4645473001146949 * 2 ^ 1029 : Nat) : Int) ∧
    (clockRun (ClockState.init sampleStart) (sampleTicks.take 2)).last_rotate_ts
      ≠ Double.add sampleStart (Double.ofSeconds 120) ∧
    (clockRun (ClockState.init sampleStart) sampleTicks).rotations = 2 ∧
    rotationDue (.fin ((3378267663238435 * 2 ^ 1030 : Nat) : Int))
      (Double.add sampleStart (Double.ofSeconds 120)) = true := by
  decide!

/-- C8 as amended. In every iteration of the loop a rotation is triggered exactly when
the double ts - last_rotate_ts is greater than 60, and then last_rotate_ts becomes the
double last_rotate_ts + 60 and one rotation is counted, so at most one rotation happens
per iteration. After n rotations last_rotate_ts is start_ts with 60 added n times in
double arithmetic, whatever the timestamps were: it is never set to the current time.
It is start_ts + 60 n exactly when no addition rounds, which holds when start_ts is a
non-negative multiple of 2^e units, e ≤ 1076, and start_ts + 60 n is below 2^(e+53)
units (a unit is 2^-1074). -/
theorem segment_clock (start_ts : Double) (tss : List Double) :
    (∀ (st : ClockState) (ts : Double),
      (clockTick st ts).rotations
        = st.rotations + (if Double.gt (Double.sub ts st.last_rotate_ts) SEGMENT_LENGTH = true
            then 1 else 0) ∧
      (clockTick st ts).last_rotate_ts
        = (if Double.gt (Double.sub ts st.last_rotate_ts) SEGMENT_LENGTH = true
            then Double.add st.last_rotate_ts SEGMENT_LENGTH else st.last_rotate_ts)) ∧
    (clockRun (ClockState.init start_ts) tss).last_rotate_ts
      = addSegments (clockRun (ClockState.init start_ts) tss).rotations start_ts ∧
    (clockRun (ClockState.init start_ts) tss).rotations ≤ tss.length ∧
    (∀ x e : Nat, start_ts = .fin (x : Int) → 2 ^ e ∣ x → e ≤ 1076 →
      x + (clockRun (ClockState.init start_ts) tss).rotations * (60 * 2 ^ 1074) < 2 ^ (e + 53) →
      (clockRun (ClockState.init start_ts) tss).last_rotate_ts
        = .fin ((x + (clockRun (ClockState.init start_ts) tss).rotations * (60 * 2 ^ 1074)
            : Nat) : Int)) := by
  obtain ⟨i1, i2, i3⟩ := clockRun_invariant tss (ClockState.init start_ts) rfl
  have i2b : (clockRun (ClockState.init start_ts) tss).start_ts = start_ts := i2
  rw [i2b] at i1
  refine ⟨?_, i1, by simpa [ClockState.init] using i3, ?_⟩
  · intro st ts
    unfold clockTick rotationDue
    constructor <;> split <;> rfl
  · intro x e hx hd he hlt
    subst hx
    rw [i1]
    exact addSegments_exact x e (clockRun (ClockState.init (.fin (x : Int))) tss).rotations
      hd he hlt

/-- C8 witness: from start_ts = 12.0 the ticks 73 and 133 trigger two rotations and
leave last_rotate_ts at 132.0 exactly. -/
theorem segment_clock_witness :
    (clockRun (ClockState.init exactStart) [Double.ofSeconds 73, Double.ofSeconds 133]).rotations
      = 2 ∧
    (clockRun (ClockState.init exactStart)
        [Double.ofSeconds 73, Double.ofSeconds 133]).last_rotate_ts
      = .fin ((132 * 2 ^ 1074 : Nat) : Int) := by
  have hr : (clockRun (ClockState.init exactStart)
      [Double.ofSeconds 73, Double.ofSeconds 133]).rotations = 2 := by decide!
  refine ⟨hr, ?_⟩
  have h := (segment_clock exactStart [Double.ofSeconds 73, Double.ofSeconds 133]).2.2.2
    (12 * 2 ^ 1074) 1076 (by decide!) ⟨3, by decide!⟩ (le_refl _) (by rw [hr]; decide!)
  rw [h, hr]
  decide!

end Loggerd

namespace SafetyFord

/-! ## Ford TX filter -/

theorem bits_7_4 (x : Nat) : (x >>> 4) &&& 0xF = (x / 2 ^ 4) % 2 ^ 4 := by
  rw [Nat.shiftRight_eq_div_pow]
  exact Nat.and_pow_two_sub_one_eq_mod _ 4

theorem bits_29_28 (x : Nat) : (x >>> 28) &&& 0x3 = (x / 2 ^ 28) % 2 ^ 2 := by
  rw [Nat.shiftRight_eq_div_pow]
  exact Nat.and_pow_two_sub_one_eq_mod _ 2

/-- C10 (Ford TX filter). For every safety state and outgoing message, ford_tx_hook
returns 0 exactly when the address is 0x3CA, controls are not currently allowed
(controls_allowed is 0, or gas is pressed, or brake is pressed while the vehicle moves)
and bits 7..4 of RDLR are not 0xF, or the address is 0x83 and bits 29..28 of RDLR are
not both zero; otherwise it returns 1; and it leaves the safety state unchanged. -/
theorem ford_tx_filter (GET_ADDR : CAN_FIFOMailBox_TypeDef → Int) (st : SafetyState)
    (to_send : CAN_FIFOMailBox_TypeDef) :
    ((ford_tx_hook GET_ADDR st to_send).2 = 0 ↔
      ((GET_ADDR to_send = 0x3CA ∧
          (st.controls_allowed = 0 ∨ st.ford_gas_prev ≠ 0 ∨
            (st.ford_brake_prev ≠ 0 ∧ st.ford_is_moving ≠ 0)) ∧
          (to_send.RDLR / 2 ^ 4) % 2 ^ 4 ≠ 0xF) ∨
       (GET_ADDR to_send = 0x83 ∧ (to_send.RDLR / 2 ^ 28) % 2 ^ 2 ≠ 0))) ∧
    ((ford_tx_hook GET_ADDR st to_send).2 = 0 ∨ (ford_tx_hook GET_ADDR st to_send).2 = 1) ∧
    (ford_tx_hook GET_ADDR st to_send).1 = st := by
  refine ⟨?_, ?_, rfl⟩
  · unfold ford_tx_hook
    simp only [bits_7_4, bits_29_28]
    by_cases ha : GET_ADDR to_send = 0x3CA
    · have hb : ¬ GET_ADDR to_send = 0x83 := by rw [ha]; decide
      by_cases hc : st.controls_allowed = 0 <;>
      by_cases hg : st.ford_gas_prev = 0 <;>
      by_cases hbr : st.ford_brake_prev = 0 <;>
      by_cases hm : st.ford_is_moving = 0 <;>
      by_cases hbits : (to_send.RDLR / 2 ^ 4) % 2 ^ 4 = 0xF <;>
      simp [ha, hc, hg, hbr, hm, hbits]
    · by_cases hb : GET_ADDR to_send = 0x83
      · by_cases hbits : (to_send.RDLR / 2 ^ 28) % 2 ^ 2 = 0 <;> simp [ha, hb, hbits]
      · simp [ha, hb]
  · unfold ford_tx_hook
    simp only [bits_7_4, bits_29_28]
    by_cases ha : GET_ADDR to_send = 0x3CA
    · have hb : ¬ GET_ADDR to_send = 0x83 := by rw [ha]; decide
      by_cases hc : st.controls_allowed = 0 <;>
      by_cases hg : st.ford_gas_prev = 0 <;>
      by_cases hbr : st.ford_brake_prev = 0 <;>
      by_cases hm : st.ford_is_moving = 0 <;>
      by_cases hbits : to_send.RDLR / 16 % 16 = 15 <;>
      simp [ha, hc, hg, hbr, hm, hbits]
    · by_cases hb : GET_ADDR to_send = 0x83
      · by_cases hbits : to_send.RDLR / 268435456 % 4 = 0 <;> simp [ha, hb, hbits]
      · simp [ha, hb]

/-! ## Ford RX hook: cancel button and brake -/

theorem bit_8 (x : Nat) : (x >>> 8) &&& 0x1 = (x / 2 ^ 8) % 2 ^ 1 := by
  rw [Nat.shiftRight_eq_div_pow]
  exact Nat.and_pow_two_sub_one_eq_mod _ 1

/-- What ford_rx_hook does with controls_allowed on a message with address 0x83 whose
cancel bit is set: the set/resume test runs after the cancel test and wins. -/
theorem ford_rx_cancel_value (GET_ADDR : CAN_FIFOMailBox_TypeDef → Int) (st : SafetyState)
    (to_push : CAN_FIFOMailBox_TypeDef) (haddr : GET_ADDR to_push = 0x83)
    (hcancel : (to_push.RDLR / 2 ^ 8) % 2 ^ 1 = 1) :
    (ford_rx_hook GET_ADDR st to_push).controls_allowed
      = if (to_push.RDLR / 2 ^ 28) % 2 ^ 2 ≠ 0 then 1 else 0 := by
  unfold ford_rx_hook
  simp only [haddr, bit_8, bits_29_28, hcancel]
  by_cases hs : to_push.RDLR / 268435456 % 4 = 0 <;> simp [hs]

/-- C11 (the code at the failing input). A message with address 0x83 whose RDLR has the
cancel bit (bit 8) and a set/resume bit (bit 28) set: after ford_rx_hook
controls_allowed is 1, whether it was 1 or 0 before. -/
theorem ford_cancel_with_resume :
    sampleAddr cancelWithResume = 0x83 ∧
    (cancelWithResume.RDLR / 2 ^ 8) % 2 = 1 ∧
    (ford_rx_hook sampleAddr engagedState cancelWithResume).controls_allowed = 1 ∧
    (ford_rx_hook sampleAddr { engagedState with controls_allowed := 0 }
      cancelWithResume).controls_allowed = 1 := by
  decide

/-- C12 (Ford brake exit). On a received message with address 0x165, with
brake = RDLR & 0x20: ford_rx_hook sets controls_allowed to 0 when brake is non-zero and
the stored brake value was zero or ford_is_moving is non-zero, and leaves it unchanged
otherwise, so it is 1 afterwards only if it was 1 before; it stores brake in
ford_brake_prev; ford_gas_prev and ford_is_moving are unchanged. -/
theorem ford_brake_exit (GET_ADDR : CAN_FIFOMailBox_TypeDef → Int) (st : SafetyState)
    (to_push : CAN_FIFOMailBox_TypeDef) (haddr : GET_ADDR to_push = 0x165) :
    (ford_rx_hook GET_ADDR st to_push).controls_allowed
      = (if (to_push.RDLR &&& 0x20 ≠ 0) ∧ (st.ford_brake_prev = 0 ∨ st.ford_is_moving ≠ 0)
          then 0 else st.controls_allowed) ∧
    ((ford_rx_hook GET_ADDR st to_push).controls_allowed = 1 → st.controls_allowed = 1) ∧
    (ford_rx_hook GET_ADDR st to_push).ford_brake_prev = ((to_push.RDLR &&& 0x20 : Nat) : Int) ∧
    (ford_rx_hook GET_ADDR st to_push).ford_gas_prev = st.ford_gas_prev ∧
    (ford_rx_hook GET_ADDR st to_push).ford_is_moving = st.ford_is_moving := by
  unfold ford_rx_hook
  simp only [haddr]
  by_cases hb : to_push.RDLR &&& 0x20 = 0 <;>
  by_cases hp : st.ford_brake_prev = 0 <;>
  by_cases hm : st.ford_is_moving = 0 <;>
  simp [hb, hp, hm]

/-- C12 witness: the brake is pressed on a standing vehicle with controls allowed. -/
theorem ford_brake_exit_witness :
    sampleAddr brakePressed = 0x165 ∧
    (ford_rx_hook sampleAddr engagedState brakePressed).controls_allowed = 0 ∧
    (ford_rx_hook sampleAddr engagedState brakePressed).ford_brake_prev = 0x20 :=
  ⟨by decide,
   by
    have h := ford_brake_exit sampleAddr engagedState brakePressed (by decide)
    exact ⟨h.1.trans (by decide), h.2.2.1.trans (by decide)⟩⟩

end SafetyFord
